import Mathlib

/-!
Verification development for the easy_profiler trace reader/writer
(Source/ThirdParty/easy_profiler/easy_profiler_core/reader.cpp).

The C++ source is shallowly embedded as executable Lean functions over a
structured representation of the binary stream: each fixed-size integer field
of the wire format becomes a `Nat` field (all integers in the file format are
unsigned and at most 64 bits wide; arithmetic that can wrap in C++ is done
modulo 2^64 through the helpers `wadd`/`wsub`), and each size-prefixed record
becomes a structure carrying its declared 2-byte size `sz` together with the
decoded payload fields.  Stream position ("bytes consumed") is tracked
explicitly so that the cancellation contract can be stated.  The
double-precision tick-to-nanosecond conversion (`EASY_CONVERT_TO_NANO` with a
non-zero cpu frequency) is floating point and outside the model: the decoder
returns a dedicated `conversionUnmodelled` outcome whenever
`cpu_frequency != 0`, so every theorem about decoded data implicitly or
explicitly works in the `cpu_frequency = 0` regime (the regime the encoder
itself always produces, reader.cpp line 1469).
-/

namespace EasyProfiler

/-- 2^64, the modulus of the C++ `uint64_t` arithmetic used for timestamps
and durations. -/
def U64 : Nat := 2 ^ 64

/-- `uint64_t` addition (wraps modulo 2^64). -/
def wadd (a b : Nat) : Nat := (a + b) % U64

/-- `uint64_t` subtraction (wraps modulo 2^64); faithful for `a b < 2^64`. -/
def wsub (a b : Nat) : Nat := (U64 + a - b) % U64

/-- reader.cpp line 86: `EASY_VERSION_INT(major, minor, patch)` packs a
version as `major<<24 | minor<<16 | patch`. -/
def versionInt (vmajor vminor vpatch : Nat) : Nat :=
  vmajor * 2 ^ 24 + vminor * 2 ^ 16 + vpatch

/-- reader.cpp line 87: minimal compatible version v0.1.0. -/
def MIN_COMPATIBLE_VERSION : Nat := versionInt 0 1 0

/-- reader.cpp line 88: v1.0.0 (additional data added to the file). -/
def EASY_V_100 : Nat := versionInt 1 0 0

/-- reader.cpp line 89: v1.3.0 (thread id widened from 4 to 8 bytes). -/
def EASY_V_130 : Nat := versionInt 1 3 0

/-- reader.cpp line 90: v2.0.0 (file header rearranged). -/
def EASY_V_200 : Nat := versionInt 2 0 0

/-- reader.cpp line 93: `TIME_FACTOR = 1000000000` (nanoseconds per second). -/
def TIME_FACTOR : Nat := 1000000000

/-- Modelled from the spec: the fixed 4-byte stream signature.  The constant
itself is declared `extern` in reader.cpp (line 83) and defined outside the
sources under src/; only its fixed, non-zero value matters here. -/
def PROFILER_SIGNATURE : Nat := 0xE11AB1E5

/-- Modelled from the spec: the current writer version, declared `extern` in
reader.cpp (line 84) and defined outside src/.  Only the facts that it is a
fixed value and at least `MIN_COMPATIBLE_VERSION` matter to the model. -/
def EASY_CURRENT_VERSION : Nat := versionInt 2 1 0

/-- reader.cpp line 123: a version is compatible iff it is at least
`MIN_COMPATIBLE_VERSION`. -/
def isCompatibleVersion (version : Nat) : Bool :=
  MIN_COMPATIBLE_VERSION ≤ version

/-- Block kind of a descriptor.  Modelled from the spec: the enum
`profiler::BlockType` (Block | Value | Event) is declared in a header outside
src/. -/
inductive BlockType where
  | Block
  | Value
  | Event
deriving DecidableEq

/-- Modelled from the spec: `profiler::SerializedBlockDescriptor` (declared
outside src/): static metadata of a block kind - stored numeric id, source
line, block type, color tag, display name and source file strings. -/
structure SerializedBlockDescriptor where
  id : Nat
  line : Nat
  color : Nat
  type : BlockType
  name : String
  file : String

/-- Modelled from the spec: `profiler::SerializedBlock` (declared outside
src/): one recorded block occurrence - begin/end timestamps, descriptor id,
and the runtime name character data (empty string = no runtime name,
matching the `*name() != 0` test of reader.cpp line 835). -/
structure SerializedBlock where
  beginT : Nat
  endT : Nat
  id : Nat
  name : String

instance : Inhabited SerializedBlock := ⟨⟨0, 0, 0, ""⟩⟩

/-- `SerializedBlock::duration() = end - begin` in `uint64_t` arithmetic. -/
def SerializedBlock.duration (b : SerializedBlock) : Nat := wsub b.endT b.beginT

/-- Modelled from the spec: `profiler::SerializedCSwitch` (declared outside
src/): a context-switch interval - begin/end timestamps, originating thread
id, and the OS thread name characters. -/
structure SerializedCSwitch where
  beginT : Nat
  endT : Nat
  tid : Nat
  name : String

instance : Inhabited SerializedCSwitch := ⟨⟨0, 0, 0, ""⟩⟩

/-- `SerializedCSwitch::duration() = end - begin` in `uint64_t` arithmetic. -/
def SerializedCSwitch.duration (c : SerializedCSwitch) : Nat := wsub c.endT c.beginT

/-- Reference to a shared `BlockStatistics` accumulator.  The C++ code shares
one heap-allocated object between all tree nodes with the same key; the
functional model represents such a shared pointer as the key of the entry in
the owning statistics map (`.id` for the descriptor-id keyed `StatsMap`,
`.name` for the name-keyed `CsStatsMap`). -/
inductive StatsKey where
  | id (k : Nat)
  | name (s : String)

/-- Modelled from the spec: `profiler::BlockStatistics` (declared outside
src/) - calls_number, total_duration, total_children_duration and the indices
of the occurrences of maximal and minimal duration.  The constructor
`BlockStatistics(duration, index, parent)` initializes calls_number to 1,
total_duration to the duration, total_children_duration to 0 and both
max/min_duration_block to the index. -/
structure BlockStatistics where
  calls_number : Nat
  total_duration : Nat
  total_children_duration : Nat
  max_duration_block : Nat
  min_duration_block : Nat

/-- `BlockStatistics(duration, index, parent)` constructor (the parent index
argument does not contribute to the modelled fields). -/
def BlockStatistics.create (duration index _parent : Nat) : BlockStatistics :=
  ⟨1, duration, 0, index, index⟩

/-- One node of the in-memory tree, `profiler::BlocksTree` (declared outside
src/, modelled from the spec).  `node` and `cs` model the two record pointers
(stored in overlapping storage in the original, so that `node->begin()` and
`cs->begin()` read the same leading timestamps; the model keeps two options,
at most one of which is set, and the `recBegin`/`recEnd` accessors read
whichever is present).  `children` holds indices into the global `blocks`
sequence; `depth` is the height of the subtree (0 for a leaf). -/
structure BlocksTree where
  node : Option SerializedBlock
  cs : Option SerializedCSwitch
  children : List Nat
  depth : Nat
  per_thread_stats : Option StatsKey
  per_parent_stats : Option StatsKey
  per_frame_stats : Option StatsKey

/-- A default-constructed `BlocksTree` (what `blocks.emplace_back()` creates
in reader.cpp lines 750 and 830). -/
def BlocksTree.empty : BlocksTree := ⟨none, none, [], 0, none, none, none⟩

instance : Inhabited BlocksTree := ⟨BlocksTree.empty⟩

/-- Begin timestamp of the record attached to a node, whether it is a block
or a context switch (union-like access, see `BlocksTree`). -/
def BlocksTree.recBegin (b : BlocksTree) : Nat :=
  match b.node with
  | some n => n.beginT
  | none => (b.cs.getD default).beginT

/-- End timestamp of the attached record (union-like access). -/
def BlocksTree.recEnd (b : BlocksTree) : Nat :=
  match b.node with
  | some n => n.endT
  | none => (b.cs.getD default).endT

/-- Duration of the attached record in `uint64_t` arithmetic. -/
def BlocksTree.recDuration (b : BlocksTree) : Nat := wsub b.recEnd b.recBegin

/-- `node->id()` of a tree node (only meaningful for block nodes). -/
def BlocksTree.nodeId (b : BlocksTree) : Nat := (b.node.getD default).id

/-- `node->name()` / `cs->name()` of a tree node (union-like access). -/
def BlocksTree.recName (b : BlocksTree) : String :=
  match b.node with
  | some n => n.name
  | none => (b.cs.getD default).name

/-- Per-thread tree root, `profiler::BlocksTreeRoot` (declared outside src/,
modelled from the spec): thread name and id, indices of top-level blocks
(`children`), context switches (`sync`) and events, accumulated wait time,
frame count, tree depth, profiled time and block count. -/
structure BlocksTreeRoot where
  thread_name : String
  thread_id : Nat
  children : List Nat
  sync : List Nat
  events : List Nat
  wait_time : Nat
  frames_number : Nat
  depth : Nat
  profiled_time : Nat
  blocks_number : Nat

/-- A default-constructed `BlocksTreeRoot` (what `threaded_trees[thread_id]`
creates on first access, reader.cpp line 696). -/
def BlocksTreeRoot.empty : BlocksTreeRoot := ⟨"", 0, [], [], [], 0, 0, 0, 0, 0⟩

instance : Inhabited BlocksTreeRoot := ⟨BlocksTreeRoot.empty⟩

/-- `StatsMap`: statistics keyed by descriptor id (reader.cpp line 248),
modelled as an association list. -/
def StatsMap := List (Nat × BlockStatistics)

instance : Inhabited StatsMap := ⟨([] : List (Nat × BlockStatistics))⟩

/-- `CsStatsMap`: statistics keyed by thread-wait name (reader.cpp
line 254). -/
def CsStatsMap := List (String × BlockStatistics)

instance : Inhabited CsStatsMap := ⟨([] : List (String × BlockStatistics))⟩

/-- `unordered_map::find` on the id-keyed statistics map. -/
def statsFind (m : StatsMap) (k : Nat) : Option BlockStatistics :=
  (List.find? (fun p => p.1 == k) m).map Prod.snd

/-- Store (replace or insert) an entry of the id-keyed statistics map;
models mutation through the shared `BlockStatistics*`. -/
def statsStore (m : StatsMap) (k : Nat) (v : BlockStatistics) : StatsMap :=
  match (m : List (Nat × BlockStatistics)) with
  | [] => [(k, v)]
  | p :: rest =>
    if p.1 = k then (k, v) :: rest else p :: statsStore rest k v

/-- `unordered_map::find` on the name-keyed statistics map. -/
def csStatsFind (m : CsStatsMap) (k : String) : Option BlockStatistics :=
  (List.find? (fun p => p.1 == k) m).map Prod.snd

/-- Store (replace or insert) an entry of the name-keyed statistics map. -/
def csStatsStore (m : CsStatsMap) (k : String) (v : BlockStatistics) : CsStatsMap :=
  match (m : List (String × BlockStatistics)) with
  | [] => [(k, v)]
  | p :: rest =>
    if p.1 = k then (k, v) :: rest else p :: csStatsStore rest k v

/-- `PerThreadStats` (reader.cpp line 671): per-thread-id statistics maps. -/
def PerThreadStats := List (Nat × StatsMap)

instance : Inhabited PerThreadStats := ⟨([] : List (Nat × StatsMap))⟩

/-- `operator[]` read on a `PerThreadStats` map (creates an empty map). -/
def ptsGet (m : PerThreadStats) (tid : Nat) : StatsMap :=
  ((List.find? (fun p => p.1 == tid) m).map Prod.snd).getD ([] : List (Nat × BlockStatistics))

/-- Store an entry of a `PerThreadStats` map (replace or insert). -/
def ptsStore (m : PerThreadStats) (tid : Nat) (v : StatsMap) : PerThreadStats :=
  match (m : List (Nat × StatsMap)) with
  | [] => [(tid, v)]
  | p :: rest =>
    if p.1 = tid then (tid, v) :: rest else p :: ptsStore rest tid v

/-- `threaded_trees` lookup; `none` when the thread id has no entry yet. -/
def treesFind (ts : List (Nat × BlocksTreeRoot)) (tid : Nat) : Option BlocksTreeRoot :=
  (List.find? (fun p => p.1 == tid) ts).map Prod.snd

/-- `threaded_trees[thread_id]` read (default root when absent). -/
def treesGet (ts : List (Nat × BlocksTreeRoot)) (tid : Nat) : BlocksTreeRoot :=
  (treesFind ts tid).getD BlocksTreeRoot.empty

/-- Store a root back into `threaded_trees`, creating the entry on first
access like `operator[]` (the iteration order of the original
`std::unordered_map` is unspecified; the model uses insertion order). -/
def treesStore (ts : List (Nat × BlocksTreeRoot)) (tid : Nat) (root : BlocksTreeRoot) :
    List (Nat × BlocksTreeRoot) :=
  match ts with
  | [] => [(tid, root)]
  | p :: rest =>
    if p.1 = tid then (tid, root) :: rest else p :: treesStore rest tid root

/-- Replace the entry at index `i` of the global blocks sequence by `f`
applied to it (in-place mutation of `blocks[i]` in the original). -/
def modifyBlockAt (bs : List BlocksTree) (i : Nat) (f : BlocksTree → BlocksTree) :
    List BlocksTree :=
  bs.set i (f (bs.getD i default))

/-- Write `blocks[i].per_thread_stats` (pointer modelled as a `StatsKey`). -/
def setPerThread (bs : List BlocksTree) (i : Nat) (k : StatsKey) : List BlocksTree :=
  modifyBlockAt bs i (fun b => { b with per_thread_stats := some k })

/-- Write `blocks[i].per_parent_stats`. -/
def setPerParent (bs : List BlocksTree) (i : Nat) (k : StatsKey) : List BlocksTree :=
  modifyBlockAt bs i (fun b => { b with per_parent_stats := some k })

/-- Write `blocks[i].per_frame_stats`. -/
def setPerFrame (bs : List BlocksTree) (i : Nat) (k : StatsKey) : List BlocksTree :=
  modifyBlockAt bs i (fun b => { b with per_frame_stats := some k })

/-- The child-duration accumulation loop shared by both `update_statistics`
overloads (reader.cpp lines 296-297, 327-328, 350-351, 380-381):
`for (auto i : children) total_children_duration += blocks[i].duration()`. -/
def addChildrenDurations (blocks : List BlocksTree) (children : List Nat) (acc : Nat) : Nat :=
  children.foldl (fun a i => wadd a ((blocks.getD i default).recDuration)) acc

/-- reader.cpp lines 279-332: `update_statistics` on the descriptor-id keyed
map.  Returns the updated map together with the key standing for the shared
`BlockStatistics*` written into the caller-chosen per-X stats slot.  The
`_parent_index` argument is kept for fidelity of the call sites; it only
feeds the `BlockStatistics` constructor. -/
def update_statistics (m : StatsMap) (current : BlocksTree)
    (currentIndex parentIndex : Nat) (blocks : List BlocksTree)
    (calculateChildren : Bool) : StatsMap × StatsKey :=
  let duration := current.recDuration
  match statsFind m current.nodeId with
  | some stats =>
    let s1 := { stats with
      calls_number := stats.calls_number + 1,
      total_duration := wadd stats.total_duration duration }
    let s2 :=
      if calculateChildren then
        { s1 with total_children_duration :=
            addChildrenDurations blocks current.children s1.total_children_duration }
      else s1
    let s3 :=
      if (blocks.getD s2.max_duration_block default).recDuration < duration then
        { s2 with max_duration_block := currentIndex }
      else s2
    let s4 :=
      if duration < (blocks.getD s3.min_duration_block default).recDuration then
        { s3 with min_duration_block := currentIndex }
      else s3
    (statsStore m current.nodeId s4, StatsKey.id current.nodeId)
  | none =>
    let s := BlockStatistics.create duration currentIndex parentIndex
    let s :=
      if calculateChildren then
        { s with total_children_duration :=
            addChildrenDurations blocks current.children s.total_children_duration }
      else s
    (statsStore m current.nodeId s, StatsKey.id current.nodeId)

/-- reader.cpp lines 334-385: the `update_statistics` overload on the
name-keyed map (used for context switches and runtime-named blocks). -/
def update_statistics_cs (m : CsStatsMap) (current : BlocksTree)
    (currentIndex parentIndex : Nat) (blocks : List BlocksTree)
    (calculateChildren : Bool) : CsStatsMap × StatsKey :=
  let duration := current.recDuration
  let key := current.recName
  match csStatsFind m key with
  | some stats =>
    let s1 := { stats with
      calls_number := stats.calls_number + 1,
      total_duration := wadd stats.total_duration duration }
    let s2 :=
      if calculateChildren then
        { s1 with total_children_duration :=
            addChildrenDurations blocks current.children s1.total_children_duration }
      else s1
    let s3 :=
      if (blocks.getD s2.max_duration_block default).recDuration < duration then
        { s2 with max_duration_block := currentIndex }
      else s2
    let s4 :=
      if duration < (blocks.getD s3.min_duration_block default).recDuration then
        { s3 with min_duration_block := currentIndex }
      else s3
    (csStatsStore m key s4, StatsKey.name key)
  | none =>
    let s := BlockStatistics.create duration currentIndex parentIndex
    let s :=
      if calculateChildren then
        { s with total_children_duration :=
            addChildrenDurations blocks current.children s.total_children_duration }
      else s
    (csStatsStore m key s, StatsKey.name key)

/-- Mutation of `per_frame_stats->total_children_duration` through the shared
pointer (reader.cpp line 394): bump the entry for key `k` in the map. -/
def statsBumpChildren (m : StatsMap) (k : Nat) (d : Nat) : StatsMap :=
  match statsFind m k with
  | some s => statsStore m k { s with total_children_duration := wadd s.total_children_duration d }
  | none => m

/-- reader.cpp lines 389-397: `update_statistics_recursive` walks a frame
subtree updating the per-frame map and every node's `per_frame_stats`.
The C++ recursion descends through `blocks[i]` for each child index `i`;
children always carry smaller indices than their parent (they were appended
to the pool earlier), so a fuel of `blocks.length` suffices and the fuel-0
case is unreachable on decoder-produced trees. -/
def update_statistics_recursive (fuel : Nat) (m : StatsMap)
    (currentIndex parentIndex : Nat) (blocks : List BlocksTree) :
    StatsMap × List BlocksTree :=
  match fuel with
  | 0 => (m, blocks)
  | fuel + 1 =>
    let current := blocks.getD currentIndex default
    let res := update_statistics m current currentIndex parentIndex blocks false
    let blocks1 := setPerFrame blocks currentIndex res.2
    current.children.foldl
      (fun acc i =>
        let m2 := statsBumpChildren acc.1 current.nodeId
          ((acc.2.getD i default).recDuration)
        update_statistics_recursive fuel m2 i parentIndex acc.2)
      (res.1, blocks1)

instance : Inhabited SerializedBlockDescriptor :=
  ⟨⟨0, 0, 0, BlockType.Block, "", ""⟩⟩

/-- `~0U` used as the parent index of root-level statistics updates. -/
def maxU32 : Nat := 4294967295

/-- `node->begin()` of a tree node holding a block. -/
def BlocksTree.nodeBegin (b : BlocksTree) : Nat := (b.node.getD default).beginT

/-- `node->end()` of a tree node holding a block. -/
def BlocksTree.nodeEnd (b : BlocksTree) : Nat := (b.node.getD default).endT

/-- The distinct failure exits of `fillTreesFromStream`; each constructor
corresponds to one `_log << ...; return 0;` site of reader.cpp.
`conversionUnmodelled` is not a C++ exit: it is the model refusing streams
with a non-zero cpu frequency, whose tick-to-nanosecond conversion is
double-precision floating point and outside this embedding. -/
inductive DecodeError where
  | wrongSignature
  | incompatibleVersion
  | zeroBlocksNumber
  | zeroMemorySize
  | zeroDescriptorsNumber
  | zeroDescriptorsMemorySize
  | badCSwitchSize
  | cswitchOverrun
  | badBlockSize
  | blockOverrun
  | badBlockId (id : Nat)
  | nullBlockDescription (id : Nat)
  | stackDepthExceeded
  | conversionUnmodelled

/-- `EasyFileHeader` (reader.cpp lines 427-439) together with the leading
signature/version words. -/
structure EasyFileHeader where
  signature : Nat
  version : Nat
  pid : Nat
  cpu_frequency : Nat
  begin_time : Nat
  end_time : Nat
  memory_size : Nat
  descriptors_memory_size : Nat
  total_blocks_number : Nat
  total_descriptors_number : Nat

/-- reader.cpp lines 441-492, `readHeader_v1`: the pre-v2.0.0 header layout.
The pid/frequency/timestamp fields carry no validity checks; the four
count/size fields are checked to be non-zero in the order they appear in the
stream (blocks number, memory size, descriptors number, descriptors memory
size), and the first zero field aborts the read. -/
def readHeader_v1 (h : EasyFileHeader) : Option DecodeError :=
  if h.total_blocks_number = 0 then some DecodeError.zeroBlocksNumber
  else if h.memory_size = 0 then some DecodeError.zeroMemorySize
  else if h.total_descriptors_number = 0 then some DecodeError.zeroDescriptorsNumber
  else if h.descriptors_memory_size = 0 then some DecodeError.zeroDescriptorsMemorySize
  else none

/-- reader.cpp lines 494-532, `readHeader_v2`: the v2.0.0 header layout.
Same four non-zero checks, in the rearranged stream order (memory size,
descriptors memory size, blocks number, descriptors number). -/
def readHeader_v2 (h : EasyFileHeader) : Option DecodeError :=
  if h.memory_size = 0 then some DecodeError.zeroMemorySize
  else if h.descriptors_memory_size = 0 then some DecodeError.zeroDescriptorsMemorySize
  else if h.total_blocks_number = 0 then some DecodeError.zeroBlocksNumber
  else if h.total_descriptors_number = 0 then some DecodeError.zeroDescriptorsNumber
  else none

/-- `sizeof(thread_id_t)` as read from the stream (reader.cpp line 685):
4 bytes before v1.3.0, 8 bytes from then on. -/
def threadIdSize (version : Nat) : Nat := if version < EASY_V_130 then 4 else 8

/-- Byte size of the version-dependent header fields after signature and
version (used only for the modelled stream position). -/
def headerFieldBytes (version : Nat) : Nat :=
  if version < EASY_V_200 then
    (if EASY_V_100 < version then (if version < EASY_V_130 then 4 else 8) else 0) + 48
  else 56

/-- One record of the descriptor section: a 2-byte size prefix and, when the
size is non-zero, the descriptor payload (`sz = 0` is the deliberate null
placeholder of reader.cpp lines 648-652). -/
structure DescRecord where
  sz : Nat
  payload : SerializedBlockDescriptor

/-- One serialized context-switch record with its 2-byte size prefix. -/
structure CSwitchRecord where
  sz : Nat
  payload : SerializedCSwitch

/-- One serialized block record with its 2-byte size prefix. -/
structure BlockRecord where
  sz : Nat
  payload : SerializedBlock

/-- One per-thread section of the stream (reader.cpp lines 687-939): thread
id, thread-name field, then the context-switch records preceded by their
count, then the block records preceded by their count.  The record lists are
the records physically present in the stream; a list shorter than its
declared count models a stream that hits end-of-file mid-section. -/
structure ThreadSection where
  threadId : Nat
  nameSize : Nat
  threadName : String
  csCount : Nat
  csRecords : List CSwitchRecord
  blockCount : Nat
  blockRecords : List BlockRecord

/-- A whole input stream: header, descriptor section, per-thread sections. -/
structure InputStream where
  header : EasyFileHeader
  descRecords : List DescRecord
  sections : List ThreadSection

/-- The mutable state of `fillTreesFromStream`.  `offset` is the variable
`i` indexing the serialized-blocks pool; `consumed` is the modelled input
stream position in bytes; `ckpt` counts the progress checkpoints consulted
so far and `ckptTrace` records the stream position at each checkpoint (the
instrument needed to state the cancellation contract).
`per_thread_statistics` / `per_thread_statistics_cs` model the per-section
local statistics maps of the same names. -/
structure DecState where
  descriptors : List (Option SerializedBlockDescriptor)
  blocks : List BlocksTree
  threaded_trees : List (Nat × BlocksTreeRoot)
  identification_table : List (String × Nat)
  blocks_counter : Nat
  read_number : Nat
  offset : Nat
  descOffset : Nat
  consumed : Nat
  ckpt : Nat
  ckptTrace : List Nat
  parent_statistics : PerThreadStats
  frame_statistics : PerThreadStats
  per_thread_statistics : StatsMap
  per_thread_statistics_cs : CsStatsMap

/-- The all-empty starting state. -/
def DecState.initial : DecState :=
  ⟨[], [], [], [], 0, 0, 0, 0, 0, 0, [], [], [], ([] : List (Nat × BlockStatistics)),
   ([] : List (String × BlockStatistics))⟩

/-- Result of (a phase of) decoding: normal continuation, a hard error
(`_log << ...; return 0;`), or a cooperative cancellation detected by a
progress checkpoint.  Every constructor carries the state at that moment. -/
inductive Outcome where
  | ok (s : DecState)
  | err (e : DecodeError) (s : DecState)
  | cancelled (s : DecState)

/-- One `update_progress` call (reader.cpp lines 401-411): the shared cell
is read-and-exchanged; a pre-existing negative value aborts the operation.
`cancel k` tells whether the cell held a negative value when the k-th
checkpoint (0-based) performed its exchange.  The stream position is
recorded in `ckptTrace`. -/
def checkpoint (cancel : Nat → Bool) (s : DecState) : Outcome :=
  let s1 := { s with ckpt := s.ckpt + 1, ckptTrace := s.ckptTrace ++ [s.consumed] }
  if cancel s.ckpt then Outcome.cancelled s1 else Outcome.ok s1

/-- The context shared by all decode phases (immutable header data plus the
`gather_statistics` flag). -/
structure DecodeCtx where
  version : Nat
  begin_time : Nat
  end_time : Nat
  memory_size : Nat
  descriptors_memory_size : Nat
  total_blocks_number : Nat
  total_descriptors_number : Nat
  gather_statistics : Bool

/-- The descriptor-section loop (reader.cpp lines 643-669): records are read
while the stream has data and fewer than `total_descriptors_number` entries
were built.  A zero size contributes a null entry and skips the progress
checkpoint (the `continue`); otherwise the payload is read into the pool and
a checkpoint runs.  Running out of records ("eof") simply ends the loop. -/
def readDescriptorsLoop (cancel : Nat → Bool) (ctx : DecodeCtx) (s : DecState) :
    List DescRecord → Outcome
  | [] => Outcome.ok s
  | r :: rest =>
    if s.descriptors.length < ctx.total_descriptors_number then
      let s := { s with consumed := s.consumed + 2 }
      if r.sz = 0 then
        readDescriptorsLoop cancel ctx
          { s with descriptors := s.descriptors ++ [none] } rest
      else
        let s := { s with
          consumed := s.consumed + r.sz,
          descOffset := s.descOffset + r.sz,
          descriptors := s.descriptors ++ [some r.payload] }
        match checkpoint cancel s with
        | Outcome.ok s2 => readDescriptorsLoop cancel ctx s2 rest
        | o => o
    else Outcome.ok s

/-- Result of a record-reading loop: `halt` propagates an error or a
cancellation; `done` continues, with `eof = true` when the records ran out
before the declared count (stream hit end-of-file). -/
inductive LoopRes where
  | halt (o : Outcome)
  | done (s : DecState) (eof : Bool)

/-- Processing of one context-switch record (reader.cpp lines 712-768),
excluding the trailing progress checkpoint (which lives in the loop).
The record is dropped without any effect besides stream/pool advance unless
`end > begin_time` (strict); an accepted record is clamped to `begin_time`,
appended to the pool, indexed from `root.sync`, counted into `wait_time`
and, when gathering, into the name-keyed per-thread statistics. -/
def processCSwitchRecord (ctx : DecodeCtx) (tid : Nat) (s : DecState)
    (r : CSwitchRecord) : Outcome :=
  let s := { s with read_number := s.read_number + 1 }
  if r.sz = 0 then Outcome.err DecodeError.badCSwitchSize s
  else if ctx.memory_size < s.offset + r.sz then Outcome.err DecodeError.cswitchOverrun s
  else
    let s := { s with consumed := s.consumed + 2 + r.sz, offset := s.offset + r.sz }
    if ctx.begin_time < r.payload.endT then
      let cs :=
        if r.payload.beginT < ctx.begin_time then
          { r.payload with beginT := ctx.begin_time }
        else r.payload
      let tree : BlocksTree := { BlocksTree.empty with cs := some cs }
      let block_index := s.blocks_counter
      let root := treesGet s.threaded_trees tid
      let root := { root with
        wait_time := wadd root.wait_time cs.duration,
        sync := root.sync ++ [block_index] }
      let s := { s with
        blocks := s.blocks ++ [tree],
        blocks_counter := block_index + 1,
        threaded_trees := treesStore s.threaded_trees tid root }
      if ctx.gather_statistics then
        let res := update_statistics_cs s.per_thread_statistics_cs tree block_index maxU32 s.blocks true
        Outcome.ok { s with
          per_thread_statistics_cs := res.1,
          blocks := setPerThread s.blocks block_index res.2 }
      else Outcome.ok s
    else Outcome.ok s

/-- The context-switch loop (reader.cpp lines 711-769): runs while records
remain below the declared count, with a progress checkpoint after each
record. -/
def csLoop (cancel : Nat → Bool) (ctx : DecodeCtx) (tid : Nat) (s : DecState) :
    List CSwitchRecord → Nat → LoopRes
  | _, 0 => LoopRes.done s false
  | [], _ + 1 => LoopRes.done s true
  | r :: rest, n + 1 =>
    match processCSwitchRecord ctx tid s r with
    | Outcome.ok s1 =>
      match checkpoint cancel s1 with
      | Outcome.ok s2 => csLoop cancel ctx tid s2 rest n
      | o => LoopRes.halt o
    | o => LoopRes.halt o

/-- The backward scan of reader.cpp lines 869-870: starting from the
second-to-last top-level child (the argument list is
`children.dropLast.reverse`), count the contiguous run of children whose
begin time is at least `mt0` (the new block's begin).  The last child is
always absorbed and is not part of this scan. -/
def reverseScanCount (blocks : List BlocksTree) (mt0 : Nat) : List Nat → Nat
  | [] => 0
  | j :: rest =>
    if mt0 ≤ (blocks.getD j default).nodeBegin then
      1 + reverseScanCount blocks mt0 rest
    else 0

/-- reader.cpp lines 887-893 (`gather_statistics` branch): for each absorbed
child update the per-parent statistics map, record the resulting shared
pointer in `child.per_parent_stats`, and fold the maximal child depth. -/
def absorbChildrenStats (blockIndex : Nat) (start : StatsMap × List BlocksTree × Nat)
    (moved : List Nat) : StatsMap × List BlocksTree × Nat :=
  moved.foldl
    (fun acc childIndex =>
      let child := acc.2.1.getD childIndex default
      let res := update_statistics acc.1 child childIndex blockIndex acc.2.1 true
      (res.1, setPerParent acc.2.1 childIndex res.2, max acc.2.2 child.depth))
    start

/-- reader.cpp lines 897-902 (plain branch): fold the maximal depth of the
absorbed children. -/
def absorbChildrenDepth (blocks : List BlocksTree) (moved : List Nat) : Nat :=
  moved.foldl (fun d childIndex => max d ((blocks.getD childIndex default).depth)) 0

/-- Outcome of the child-absorption step of one accepted block (reader.cpp
lines 859-903): the per-parent statistics map, the (possibly stats-updated)
blocks pool, the absorbed child run (`moved`, in order), the remaining
top-level children (`kept`), and the maximal depth among the absorbed
children. -/
structure AbsorbRes where
  pps : StatsMap
  blocks : List BlocksTree
  moved : List Nat
  kept : List Nat
  maxChildDepth : Nat

/-- reader.cpp lines 859-903: if the new block (begin time `mt0`) starts
before the end of the last appended top-level child, it encloses the last
child plus the maximal preceding run of children beginning at or after
`mt0`; that run moves in order into the new block's children list. -/
def absorbTrailing (ctx : DecodeCtx) (tid : Nat) (s : DecState) (mt0 : Nat)
    (blockIndex : Nat) : AbsorbRes :=
  match (treesGet s.threaded_trees tid).children.getLast? with
  | some lastIdx =>
    let children := (treesGet s.threaded_trees tid).children
    if mt0 < (s.blocks.getD lastIdx default).nodeEnd then
      let cnt := 1 + reverseScanCount s.blocks mt0 children.dropLast.reverse
      let lower := children.length - cnt
      let moved := children.drop lower
      let kept := children.take lower
      if ctx.gather_statistics then
        let res := absorbChildrenStats blockIndex
          (([] : List (Nat × BlockStatistics)), s.blocks, 0) moved
        ⟨res.1, res.2.1, moved, kept, res.2.2⟩
      else
        ⟨ptsGet s.parent_statistics tid, s.blocks, moved, kept,
         absorbChildrenDepth s.blocks moved⟩
    else ⟨ptsGet s.parent_statistics tid, s.blocks, [], children, 0⟩
  | none => ⟨ptsGet s.parent_statistics tid, s.blocks, [], [], 0⟩

/-- reader.cpp lines 835-857: blocks carrying a runtime name get a dynamic
descriptor id.  A name already seen reuses its id; a new name allocates the
next table slot, duplicates the original static descriptor entry there, and
records the mapping for later occurrences. -/
def resolveDynamicId (s : DecState) (nd0 : SerializedBlock) : SerializedBlock × DecState :=
  if nd0.name ≠ "" then
    match (List.find? (fun p => p.1 == nd0.name) s.identification_table).map Prod.snd with
    | some knownId => ({ nd0 with id := knownId }, s)
    | none =>
      let newId := s.descriptors.length
      ({ nd0 with id := newId },
       { s with
         identification_table := s.identification_table ++ [(nd0.name, newId)],
         descriptors := s.descriptors ++ [s.descriptors.getD nd0.id none] })
  else (nd0, s)

/-- The tail of one accepted block record (reader.cpp lines 825-932): clamp
the begin time, resolve a dynamic descriptor id for a runtime name
(`resolveDynamicId`, lines 835-857), absorb the trailing top-level children
the block encloses (`absorbTrailing`, lines 859-903), fail at depth 254
(lines 905-916), and append the block as the new last top-level child,
feeding the per-thread statistics when gathering. -/
def acceptBlock (ctx : DecodeCtx) (tid : Nat) (s : DecState) (payload : SerializedBlock)
    (desc : SerializedBlockDescriptor) : Outcome :=
  let nd0 :=
    if payload.beginT < ctx.begin_time then
      { payload with beginT := ctx.begin_time }
    else payload
  let block_index := s.blocks_counter
  let dyn := resolveDynamicId s nd0
  let nd := dyn.1
  let s := dyn.2
  let root := treesGet s.threaded_trees tid
  let ab := absorbTrailing ctx tid s nd.beginT block_index
  let s :=
    if ctx.gather_statistics ∧ ab.moved ≠ [] then
      { s with
        parent_statistics := ptsStore s.parent_statistics tid ab.pps,
        blocks := ab.blocks }
    else s
  if ab.moved ≠ [] ∧ ab.maxChildDepth = 254 then
    Outcome.err DecodeError.stackDepthExceeded s
  else
    let tree : BlocksTree := { BlocksTree.empty with
      node := some nd,
      children := ab.moved,
      depth := if ab.moved = [] then 0 else ab.maxChildDepth + 1 }
    -- reader.cpp lines 922-925
    let root := { root with
      blocks_number := root.blocks_number + 1,
      children := ab.kept ++ [block_index] }
    let root :=
      if desc.type ≠ BlockType.Block then
        { root with events := root.events ++ [block_index] }
      else root
    let s := { s with
      blocks := s.blocks ++ [tree],
      blocks_counter := block_index + 1,
      threaded_trees := treesStore s.threaded_trees tid root }
    -- reader.cpp lines 928-932: per-thread statistics
    if ctx.gather_statistics then
      let res := update_statistics s.per_thread_statistics tree block_index maxU32 s.blocks true
      Outcome.ok { s with
        per_thread_statistics := res.1,
        blocks := setPerThread s.blocks block_index res.2 }
    else Outcome.ok s

/-- Processing of one block record (reader.cpp lines 779-933), excluding the
trailing progress checkpoint.  In stream order: the size and pool-overrun
checks, the descriptor id range and null checks, then the begin-time
acceptance test (`end >= begin_time`, non-strict), dispatching accepted
blocks to `acceptBlock`. -/
def processBlockRecord (ctx : DecodeCtx) (tid : Nat) (s : DecState)
    (r : BlockRecord) : Outcome :=
  let s := { s with read_number := s.read_number + 1 }
  if r.sz = 0 then Outcome.err DecodeError.badBlockSize s
  else if ctx.memory_size < s.offset + r.sz then Outcome.err DecodeError.blockOverrun s
  else
    let s := { s with consumed := s.consumed + 2 + r.sz, offset := s.offset + r.sz }
    if ctx.total_descriptors_number ≤ r.payload.id then
      Outcome.err (DecodeError.badBlockId r.payload.id) s
    else
      match s.descriptors.getD r.payload.id none with
      | none => Outcome.err (DecodeError.nullBlockDescription r.payload.id) s
      | some desc =>
        if ctx.begin_time ≤ r.payload.endT then
          acceptBlock ctx tid s r.payload desc
        else Outcome.ok s

/-- The block-record loop (reader.cpp lines 779-939), with a progress
checkpoint after each record. -/
def blocksLoop (cancel : Nat → Bool) (ctx : DecodeCtx) (tid : Nat) (s : DecState) :
    List BlockRecord → Nat → LoopRes
  | _, 0 => LoopRes.done s false
  | [], _ + 1 => LoopRes.done s true
  | r :: rest, n + 1 =>
    match processBlockRecord ctx tid s r with
    | Outcome.ok s1 =>
      match checkpoint cancel s1 with
      | Outcome.ok s2 => blocksLoop cancel ctx tid s2 rest n
      | o => LoopRes.halt o
    | o => LoopRes.halt o

/-- Ensure `threaded_trees[thread_id]` exists (`operator[]` semantics of
reader.cpp line 696). -/
def treesEnsure (ts : List (Nat × BlocksTreeRoot)) (tid : Nat) :
    List (Nat × BlocksTreeRoot) :=
  if (treesFind ts tid).isSome then ts else ts ++ [(tid, BlocksTreeRoot.empty)]

/-- One per-thread section (reader.cpp lines 687-939): thread id, thread
name, the context-switch loop, the end-of-file break between the loops, and
the block loop.  The per-section statistics maps start out fresh. -/
def processSection (cancel : Nat → Bool) (ctx : DecodeCtx) (s : DecState)
    (sec : ThreadSection) : LoopRes :=
  let s := { s with consumed := s.consumed + threadIdSize ctx.version }
  let s := { s with threaded_trees := treesEnsure s.threaded_trees sec.threadId }
  let s := { s with consumed := s.consumed + 2 + sec.nameSize }
  let s :=
    if sec.nameSize ≠ 0 then
      let root := treesGet s.threaded_trees sec.threadId
      { s with threaded_trees :=
          treesStore s.threaded_trees sec.threadId { root with thread_name := sec.threadName } }
    else s
  let s := { s with per_thread_statistics_cs := ([] : List (String × BlockStatistics)) }
  let s := { s with consumed := s.consumed + 4 }
  match csLoop cancel ctx sec.threadId s sec.csRecords sec.csCount with
  | LoopRes.halt o => LoopRes.halt o
  | LoopRes.done s eof =>
    if eof then LoopRes.done s true
    else
      let s := { s with per_thread_statistics := ([] : List (Nat × BlockStatistics)) }
      let s := { s with consumed := s.consumed + 4 }
      blocksLoop cancel ctx sec.threadId s sec.blockRecords sec.blockCount

/-- The outer thread-section loop (reader.cpp lines 687-940): sections are
consumed until the stream runs out; an end-of-file inside a section stops
everything (without error). -/
def sectionsLoop (cancel : Nat → Bool) (ctx : DecodeCtx) (s : DecState) :
    List ThreadSection → Outcome
  | [] => Outcome.ok s
  | sec :: rest =>
    match processSection cancel ctx s sec with
    | LoopRes.halt o => o
    | LoopRes.done s1 eof =>
      if eof then Outcome.ok s1 else sectionsLoop cancel ctx s1 rest

/-- The root finalization without statistics (reader.cpp lines 1019-1046):
count frames of `Block` type, roll up depth and profiled time, then add the
root's own level. -/
def finalizeRootNoStats (descriptors : List (Option SerializedBlockDescriptor))
    (blocks : List BlocksTree) (tid : Nat) (root0 : BlocksTreeRoot) : BlocksTreeRoot :=
  let root := { root0 with thread_id := tid }
  let root := root.children.foldl
    (fun rt childIndex =>
      let frame := blocks.getD childIndex default
      let rt :=
        if ((descriptors.getD frame.nodeId none).getD default).type = BlockType.Block then
          { rt with frames_number := rt.frames_number + 1 }
        else rt
      let rt := if rt.depth < frame.depth then { rt with depth := frame.depth } else rt
      { rt with profiled_time := wadd rt.profiled_time frame.recDuration })
    root
  { root with depth := root.depth + 1 }

/-- The per-frame context-switch statistics loop (reader.cpp lines 983-997):
a do-while over `sync` shared across the frames of one thread; switches
ending before the frame are skipped for good (`continue` advances the
index), a switch starting after the frame stops the loop without advancing
(`break`), and switches overlapping the frame are folded into a per-frame
name-keyed map.  The leading fuel bounds the recursion for Lean; the index
strictly increases and is bounded by `sync.length`, so any fuel above
`sync.length` computes the C++ result. -/
def csFrameLoop (sync : List Nat) (frame : BlocksTree) (childIndex : Nat) :
    Nat → CsStatsMap → List BlocksTree → Nat → Nat × List BlocksTree
  | 0, _, blocks, csIndex => (csIndex, blocks)
  | fuel + 1, fsc, blocks, csIndex =>
    if csIndex < sync.length then
      let j := sync.getD csIndex 0
      let cs := blocks.getD j default
      if cs.recEnd < frame.recBegin then
        csFrameLoop sync frame childIndex fuel fsc blocks (csIndex + 1)
      else if frame.recEnd < cs.recBegin then (csIndex, blocks)
      else
        let res := update_statistics_cs fsc cs csIndex childIndex blocks true
        csFrameLoop sync frame childIndex fuel res.1 (setPerFrame blocks j res.2) (csIndex + 1)
    else (csIndex, blocks)

/-- Accumulator of the per-thread statistics worker (reader.cpp lambda,
lines 963-1006). -/
structure GatherAcc where
  root : BlocksTreeRoot
  pps : StatsMap
  pfs : StatsMap
  blocks : List BlocksTree
  csIndex : Nat

/-- The per-thread statistics worker (reader.cpp lines 963-1006): for every
frame (top-level child) update the per-parent map, rebuild the per-frame map
by a recursive subtree walk, attribute overlapping context switches, and
roll up depth and profiled time.  The fuel bounds the subtree recursion (see
`update_statistics_recursive`). -/
def gatherWorker (fuel : Nat) (descriptors : List (Option SerializedBlockDescriptor))
    (root0 : BlocksTreeRoot) (pps0 pfs0 : StatsMap) (blocks0 : List BlocksTree) :
    GatherAcc :=
  let fin := root0.children.foldl
    (fun (acc : GatherAcc) childIndex =>
      let frame := acc.blocks.getD childIndex default
      let rt :=
        if ((descriptors.getD frame.nodeId none).getD default).type = BlockType.Block then
          { acc.root with frames_number := acc.root.frames_number + 1 }
        else acc.root
      let res1 := update_statistics acc.pps frame childIndex maxU32 acc.blocks true
      let bs1 := setPerParent acc.blocks childIndex res1.2
      let res2 := update_statistics_recursive fuel ([] : List (Nat × BlockStatistics))
        childIndex childIndex bs1
      let cs3 := csFrameLoop root0.sync frame childIndex (root0.sync.length + 1)
        ([] : List (String × BlockStatistics)) res2.2 acc.csIndex
      let rt := if rt.depth < frame.depth then { rt with depth := frame.depth } else rt
      let rt := { rt with profiled_time := wadd rt.profiled_time frame.recDuration }
      ⟨rt, res1.1, res2.1, cs3.2, cs3.1⟩)
    ⟨root0, pps0, pfs0, blocks0, 0⟩
  { fin with root := { fin.root with depth := fin.root.depth + 1 } }

/-- The final statistics phase (reader.cpp lines 947-1047).  With
`gather_statistics` the original spawns one worker thread per trace thread,
each owning its `BlocksTreeRoot` and its own maps exclusively, and joins
them all; the workers share no mutable state, so the model runs them
sequentially in map order. -/
def finalizeTrees (ctx : DecodeCtx) (s : DecState) : DecState :=
  let keys := s.threaded_trees.map Prod.fst
  if ctx.gather_statistics then
    keys.foldl
      (fun st tid =>
        let root := { treesGet st.threaded_trees tid with thread_id := tid }
        let pfs := ptsGet st.frame_statistics tid
        let res := gatherWorker (st.blocks.length + 1) st.descriptors root
          ([] : List (Nat × BlockStatistics)) pfs st.blocks
        { st with
          threaded_trees := treesStore st.threaded_trees tid res.root,
          parent_statistics := ptsStore st.parent_statistics tid res.pps,
          frame_statistics := ptsStore st.frame_statistics tid res.pfs,
          blocks := res.blocks })
      s
  else
    keys.foldl
      (fun st tid =>
        let root := finalizeRootNoStats st.descriptors st.blocks tid
          (treesGet st.threaded_trees tid)
        { st with threaded_trees := treesStore st.threaded_trees tid root })
      s

/-- reader.cpp lines 569-1052, `fillTreesFromStream`: the whole decoder.
Signature and version gating, header dispatch by version, the descriptor
section, the thread sections (skipped entirely when the descriptor section
under-read at end-of-stream), the checkpoint at progress 90, and the final
statistics phase.  Streams with a non-zero cpu frequency are refused by the
model (their timestamp conversion is floating point, see the module
comment); the encoder only ever writes frequency 0. -/
def fillTreesFromStream (cancel : Nat → Bool) (input : InputStream)
    (gather_statistics : Bool) : Outcome :=
  match checkpoint cancel DecState.initial with
  | Outcome.ok s =>
    let h := input.header
    let s := { s with consumed := s.consumed + 4 }
    if h.signature ≠ PROFILER_SIGNATURE then Outcome.err DecodeError.wrongSignature s
    else
      let s := { s with consumed := s.consumed + 4 }
      if ¬ isCompatibleVersion h.version then Outcome.err DecodeError.incompatibleVersion s
      else
        match (if h.version < EASY_V_200 then readHeader_v1 h else readHeader_v2 h) with
        | some e => Outcome.err e s
        | none =>
          let s := { s with consumed := s.consumed + headerFieldBytes h.version }
          if h.cpu_frequency ≠ 0 then Outcome.err DecodeError.conversionUnmodelled s
          else
            let ctx : DecodeCtx :=
              ⟨h.version, h.begin_time, h.end_time, h.memory_size,
               h.descriptors_memory_size, h.total_blocks_number,
               h.total_descriptors_number, gather_statistics⟩
            match readDescriptorsLoop cancel ctx s input.descRecords with
            | Outcome.ok s =>
              let afterSections :=
                if s.descriptors.length < ctx.total_descriptors_number then
                  Outcome.ok s
                else sectionsLoop cancel ctx s input.sections
              match afterSections with
              | Outcome.ok s =>
                match checkpoint cancel s with
                | Outcome.ok s => Outcome.ok (finalizeTrees ctx s)
                | o => o
              | o => o
            | o => o
  | o => o

/-- The state carried by an outcome. -/
def Outcome.stateOf : Outcome → DecState
  | Outcome.ok s => s
  | Outcome.err _ s => s
  | Outcome.cancelled s => s

/-- Whether the outcome is a normal completion. -/
def Outcome.isOk : Outcome → Bool
  | Outcome.ok _ => true
  | _ => false

/-- Whether the outcome is a cooperative cancellation. -/
def Outcome.isCancelled : Outcome → Bool
  | Outcome.cancelled _ => true
  | _ => false

/-- The error of a failed outcome, if any. -/
def Outcome.errOf : Outcome → Option DecodeError
  | Outcome.err e _ => some e
  | _ => none

/-- The `block_index_t` value actually returned by `fillTreesFromStream`:
the block counter on success, the sentinel 0 on every error or
cancellation. -/
def returnedBlocks (o : Outcome) : Nat :=
  match o with
  | Outcome.ok s => s.blocks_counter
  | _ => 0

/-- The oracle of a run in which no external writer ever puts a negative
value into the progress cell. -/
def neverCancel : Nat → Bool := fun _ => false

/-- `strlen` of a record name (bytes of the stored C string). -/
def strBytes (s : String) : Nat := s.utf8ByteSize

/-- Modelled from the spec: `sizeof(profiler::SerializedBlock)` (fixed part:
begin and end timestamps plus the descriptor id; the header defining the
packed layout is outside src/).  No claim depends on the numeric value. -/
def sizeofSerializedBlock : Nat := 20

/-- Modelled from the spec: `sizeof(profiler::SerializedCSwitch)` (begin,
end, thread id; defined outside src/). -/
def sizeofSerializedCSwitch : Nat := 24

/-- Modelled from the spec: `sizeof(profiler::SerializedBlockDescriptor)`
(fixed part before the name/file strings; defined outside src/). -/
def sizeofSerializedBlockDescriptor : Nat := 13

/-- Modelled from the spec: `sizeof(profiler::ArbitraryValue)` (defined
outside src/); the decoder in reader.cpp never constructs value nodes, so
the value-payload size contribution is a fixed stand-in. -/
def sizeofArbitraryValue : Nat := 24

/-- `std::lower_bound` over `[first, first+len)` of an index sequence:
returns the first position whose element does not satisfy `comp` (the
"element < value" predicate), by the standard binary search.  The leading
fuel argument only bounds the recursion for Lean; `len` strictly decreases
on every step, so any fuel of at least `len` computes the C++ result. -/
def lowerBoundGo (children : List Nat) (comp : Nat → Bool) : Nat → Nat → Nat → Nat
  | _, first, 0 => first
  | 0, first, _ => first
  | fuel + 1, first, len =>
    let half := len / 2
    let mid := first + half
    if comp (children.getD mid 0) then
      lowerBoundGo children comp fuel (mid + 1) (len - half - 1)
    else
      lowerBoundGo children comp fuel first half

/-- `std::lower_bound` over the whole sequence. -/
def lowerBound (children : List Nat) (comp : Nat → Bool) : Nat :=
  lowerBoundGo children comp children.length 0 children.length

/-- `BlocksRange` (reader.cpp lines 1137-1151): a half-open index range into
a `children` sequence; the default is the empty range `(size, size)`. -/
structure BlocksRange where
  beginIndex : Nat
  endIndex : Nat

instance : Inhabited BlocksRange := ⟨⟨0, 0⟩⟩

/-- reader.cpp lines 1188-1227, `findRange`: select the top-level entries
intersecting the window `[beginTime, endTime]`.  `first_it` is the first
entry ending at or after `beginTime`; the for-loop of lines 1199-1204
iterates a copy of `first_it` and changes nothing, so it does not appear in
the model.  The range is assigned only when the second search lands strictly
inside the sequence (`last_it != children.end()`) and that entry also ends
at or after `beginTime`; otherwise the empty default `(size, size)` is
returned. -/
def findRange (children : List Nat) (blocks : List BlocksTree)
    (beginTime endTime : Nat) : BlocksRange :=
  let size := children.length
  let firstIdx := lowerBound children
    (fun el => (blocks.getD el default).recEnd < beginTime)
  if firstIdx < size ∧ (blocks.getD (children.getD firstIdx 0) default).recBegin ≤ endTime then
    let lastIdx := lowerBound children
      (fun el => (blocks.getD el default).recBegin ≤ endTime)
    if lastIdx < size ∧ beginTime ≤ (blocks.getD (children.getD lastIdx 0) default).recEnd then
      if firstIdx ≤ lastIdx then ⟨firstIdx, lastIdx⟩ else ⟨size, size⟩
    else ⟨size, size⟩
  else ⟨size, size⟩

/-- `BlocksMemoryAndCount` (reader.cpp lines 1153-1166). -/
structure BlocksMemoryAndCount where
  usedMemorySize : Nat
  blocksCount : Nat

instance : Inhabited BlocksMemoryAndCount := ⟨⟨0, 0⟩⟩

/-- `operator+=` of `BlocksMemoryAndCount`. -/
def bmcAdd (a b : BlocksMemoryAndCount) : BlocksMemoryAndCount :=
  ⟨a.usedMemorySize + b.usedMemorySize, a.blocksCount + b.blocksCount⟩

/-- The index list `[range.beginIndex, range.endIndex)` of a C++
`for (auto i = range.begin; i < range.end; ++i)` loop. -/
def rangeIdxs (range : BlocksRange) : List Nat :=
  (List.range (range.endIndex - range.beginIndex)).map (fun k => range.beginIndex + k)

/-- reader.cpp lines 1229-1276, `calculateUsedMemoryAndBlocksCount`:
recursively accumulate the serialized size and the record count of the
selected subtrees (the whole subtree of every selected entry).  The fuel
bounds the child recursion; `blocks.length + 1` always suffices because a
child index is strictly smaller than its parent index. -/
def calculateUsedMemoryAndBlocksCount (fuel : Nat) (children : List Nat)
    (range : BlocksRange) (blocks : List BlocksTree)
    (descriptors : List (Option SerializedBlockDescriptor))
    (contextSwitches : Bool) : BlocksMemoryAndCount :=
  match fuel with
  | 0 => ⟨0, 0⟩
  | fuel + 1 =>
    if contextSwitches then
      (rangeIdxs range).foldl
        (fun acc i =>
          let child := blocks.getD (children.getD i 0) default
          ⟨acc.usedMemorySize + sizeofSerializedCSwitch + strBytes child.recName + 1,
           acc.blocksCount + 1⟩)
        ⟨0, 0⟩
    else
      (rangeIdxs range).foldl
        (fun acc i =>
          let child := blocks.getD (children.getD i 0) default
          let desc := (descriptors.getD child.nodeId none).getD default
          let selfMemory :=
            if desc.type = BlockType.Value then sizeofArbitraryValue
            else sizeofSerializedBlock + strBytes (child.node.getD default).name + 1
          let childPart := calculateUsedMemoryAndBlocksCount fuel child.children
            ⟨0, child.children.length⟩ blocks descriptors false
          ⟨acc.usedMemorySize + childPart.usedMemorySize + selfMemory,
           acc.blocksCount + childPart.blocksCount + 1⟩)
        ⟨0, 0⟩

/-- One write to the output stream, as a structured token (the model keeps
record payloads structured rather than as raw bytes). -/
inductive WItem where
  | headerWord (v : Nat)
  | descriptor (sz : Nat) (d : SerializedBlockDescriptor)
  | threadId (tid : Nat)
  | threadNameField (sz : Nat) (s : String)
  | countField (n : Nat)
  | blockRec (sz : Nat) (b : SerializedBlock)
  | cswitchRec (sz : Nat) (c : SerializedCSwitch)

/-- reader.cpp lines 1278-1320, `serializeBlocks`: write the selected range
in completion order, each subtree before its own root (children first, then
self), restoring the original static descriptor id of dynamically renamed
blocks (`if (child.node->id() != desc.id()) block->setId(desc.id())`).
A null descriptor entry would be dereferenced without a check (undefined
behavior in the source); the model reads a default descriptor there, and the
surfaced version of that presupposition lives in `serializeDescriptors`. -/
def serializeBlocks (fuel : Nat) (children : List Nat) (range : BlocksRange)
    (blocks : List BlocksTree)
    (descriptors : List (Option SerializedBlockDescriptor)) : List WItem :=
  match fuel with
  | 0 => []
  | fuel + 1 =>
    (rangeIdxs range).foldl
      (fun out i =>
        let child := blocks.getD (children.getD i 0) default
        let childItems := serializeBlocks fuel child.children
          ⟨0, child.children.length⟩ blocks descriptors
        let desc := (descriptors.getD child.nodeId none).getD default
        let item :=
          if desc.type = BlockType.Value then
            WItem.blockRec sizeofArbitraryValue (child.node.getD default)
          else
            let nd := child.node.getD default
            let usedMemorySize := sizeofSerializedBlock + strBytes nd.name + 1
            let ndOut := if nd.id ≠ desc.id then { nd with id := desc.id } else nd
            WItem.blockRec usedMemorySize ndOut
        out ++ childItems ++ [item])
      []

/-- reader.cpp lines 1322-1338, `serializeContextSwitches`. -/
def serializeContextSwitches (children : List Nat) (range : BlocksRange)
    (blocks : List BlocksTree) : List WItem :=
  (rangeIdxs range).foldl
    (fun out i =>
      let child := blocks.getD (children.getD i 0) default
      let cs := child.cs.getD default
      out ++ [WItem.cswitchRec (sizeofSerializedCSwitch + strBytes cs.name + 1) cs])
    []

/-- The loop body of `serializeDescriptors` (reader.cpp lines 1344-1359):
scan indices `i < size` (`left = size - i` counts the remaining ones); each
visited entry is dereferenced first (`none` models the undefined behavior of
dereferencing a null placeholder), then the loop breaks permanently at the
first entry whose stored id differs from its index, otherwise the
descriptor is written. -/
def serializeDescriptorsGo (descriptors : List (Option SerializedBlockDescriptor)) :
    Nat → List WItem → Nat → Option (List WItem)
  | _, acc, 0 => some acc
  | i, acc, left + 1 =>
    match descriptors.getD i none with
    | none => none
    | some desc =>
      if desc.id ≠ i then some acc
      else
        serializeDescriptorsGo descriptors (i + 1)
          (acc ++ [WItem.descriptor
            (sizeofSerializedBlockDescriptor + strBytes desc.name + strBytes desc.file + 2)
            desc])
          left

/-- reader.cpp lines 1340-1360, `serializeDescriptors`: write the leading
entries (capped at `descriptors_count`) whose stored id equals their index,
stopping at the first mismatch.  `none` signals the undefined behavior of
dereferencing a null placeholder entry during the scan. -/
def serializeDescriptors (descriptors : List (Option SerializedBlockDescriptor))
    (descriptors_count : Nat) : Option (List WItem) :=
  serializeDescriptorsGo descriptors 0 [] (min descriptors.length descriptors_count)

/-- `BlocksAndCSwitchesRange` (reader.cpp lines 1168-1174). -/
structure BlocksAndCSwitchesRange where
  blocksMemoryAndCount : BlocksMemoryAndCount
  cswitchesMemoryAndCount : BlocksMemoryAndCount
  blocksRange : BlocksRange
  cswitchesRange : BlocksRange

instance : Inhabited BlocksAndCSwitchesRange := ⟨default, default, default, default⟩

/-- The first loop of `writeTreesToStream` (reader.cpp lines 1417-1453):
per thread compute the selected ranges and their memory/count, widen the
window to the true extent of the selected records, and run a write-side
progress checkpoint.  Returns `none` on cancellation (nothing has been
written yet at that point).  Lines 1443-1444 of the source index
`tree.children` with the context-switch range when widening (instead of
`tree.sync`); the model reproduces this verbatim, with out-of-range
accesses reading the default node. -/
def rangesLoop (cancel : Nat → Bool) (blocks : List BlocksTree)
    (descriptors : List (Option SerializedBlockDescriptor))
    (begin_time end_time : Nat) (fuel : Nat) :
    List (Nat × BlocksTreeRoot) → Nat →
    List (Nat × BlocksAndCSwitchesRange) → BlocksMemoryAndCount → Nat → Nat →
    Option (List (Nat × BlocksAndCSwitchesRange) × BlocksMemoryAndCount × Nat × Nat × Nat)
  | [], ck, acc, total, bT, eT => some (acc, total, bT, eT, ck)
  | (tid, tree) :: rest, ck, acc, total, bT, eT =>
    let rb := findRange tree.children blocks begin_time end_time
    let rc := findRange tree.sync blocks begin_time end_time
    let bmc := calculateUsedMemoryAndBlocksCount fuel tree.children rb blocks descriptors false
    let total := bmcAdd total bmc
    let bT1 :=
      if bmc.blocksCount ≠ 0 then
        min bT ((blocks.getD (tree.children.getD rb.beginIndex 0) default).recBegin)
      else bT
    let eT1 :=
      if bmc.blocksCount ≠ 0 then
        max eT ((blocks.getD (tree.children.getD (rb.endIndex - 1) 0) default).recEnd)
      else eT
    let cmc := calculateUsedMemoryAndBlocksCount fuel tree.sync rc blocks descriptors true
    let total := bmcAdd total cmc
    let bT2 :=
      if cmc.blocksCount ≠ 0 then
        min bT1 ((blocks.getD (tree.children.getD rc.beginIndex 0) default).recBegin)
      else bT1
    let eT2 :=
      if cmc.blocksCount ≠ 0 then
        max eT1 ((blocks.getD (tree.children.getD (rc.endIndex - 1) 0) default).recEnd)
      else eT1
    let acc := acc ++ [(tid, (⟨bmc, cmc, rb, rc⟩ : BlocksAndCSwitchesRange))]
    if cancel ck then none
    else rangesLoop cancel blocks descriptors begin_time end_time fuel rest (ck + 1) acc total bT2 eT2

/-- The second loop of `writeTreesToStream` (reader.cpp lines 1485-1509):
write each thread section (id, name field, context-switch count and records,
block count and records) with a write-side checkpoint per thread; on
cancellation the partially written output stands and the sentinel 0 is
returned. -/
def writeLoop (cancel : Nat → Bool) (blocks : List BlocksTree)
    (descriptors : List (Option SerializedBlockDescriptor)) (fuel : Nat)
    (ranges : List (Nat × BlocksAndCSwitchesRange)) (totalCount : Nat) :
    List (Nat × BlocksTreeRoot) → Nat → List WItem → Nat × List WItem
  | [], _, out => (totalCount, out)
  | (tid, tree) :: rest, ck, out =>
    let range := ((List.find? (fun p => p.1 == tid) ranges).map Prod.snd).getD default
    let nameSize := strBytes tree.thread_name + 1
    let out := out ++ [WItem.threadId tid, WItem.threadNameField nameSize tree.thread_name]
    let out := out ++ [WItem.countField range.cswitchesMemoryAndCount.blocksCount]
    let out :=
      if range.cswitchesMemoryAndCount.blocksCount ≠ 0 then
        out ++ serializeContextSwitches tree.sync range.cswitchesRange blocks
      else out
    let out := out ++ [WItem.countField range.blocksMemoryAndCount.blocksCount]
    let out :=
      if range.blocksMemoryAndCount.blocksCount ≠ 0 then
        out ++ serializeBlocks fuel tree.children range.blocksRange blocks descriptors
      else out
    if cancel ck then (0, out)
    else writeLoop cancel blocks descriptors fuel ranges totalCount rest (ck + 1) out

/-- reader.cpp lines 1392-1512, `writeTreesToStream`: the whole encoder.
Empty trees / descriptors data / descriptor count return the sentinel
immediately; the ranges are computed per thread; a selection with zero
blocks overall returns the sentinel before anything is written; otherwise
the header, the descriptor section and the thread sections are written.
The result is the returned `block_index_t` paired with the sequence of
writes that reached the stream. -/
def writeTreesToStream (cancel : Nat → Bool) (serializedDescriptorsSize : Nat)
    (descriptors : List (Option SerializedBlockDescriptor)) (descriptors_count : Nat)
    (trees : List (Nat × BlocksTreeRoot)) (blocks : List BlocksTree)
    (begin_time end_time : Nat) (pid : Nat) : Nat × List WItem :=
  if cancel 0 then (0, [])
  else if trees.isEmpty ∨ serializedDescriptorsSize = 0 ∨ descriptors_count = 0 then (0, [])
  else
    let fuel := blocks.length + 1
    match rangesLoop cancel blocks descriptors begin_time end_time fuel trees 1 [] ⟨0, 0⟩ begin_time end_time with
    | none => (0, [])
    | some (ranges, total, beginTime, endTime, nextCk) =>
      if total.blocksCount = 0 then (0, [])
      else
        let usedMemorySizeDescriptors := serializedDescriptorsSize + descriptors_count * 2
        let headerItems : List WItem :=
          [PROFILER_SIGNATURE, EASY_CURRENT_VERSION, pid, 0, beginTime, endTime,
           total.usedMemorySize, usedMemorySizeDescriptors, total.blocksCount,
           descriptors_count].map WItem.headerWord
        let descItems := (serializeDescriptors descriptors descriptors_count).getD []
        writeLoop cancel blocks descriptors fuel ranges total.blocksCount trees nextCk
          (headerItems ++ descItems)

instance : Inhabited ThreadSection := ⟨⟨0, 0, "", 0, [], 0, []⟩⟩

instance : Inhabited BlockRecord := ⟨⟨0, default⟩⟩

instance : Inhabited CSwitchRecord := ⟨⟨0, default⟩⟩

/-- The shape of a tree node: the fields of `BlocksTree` that statistics
writes never touch (record pointer, depth, children). -/
def nodeProj (b : BlocksTree) : Option SerializedBlock × Nat × List Nat :=
  (b.node, b.depth, b.children)

/-- A descriptor id is valid for a table when the entry exists and is not a
null placeholder. -/
def DescOk (ds : List (Option SerializedBlockDescriptor)) (id : Nat) : Prop :=
  id < ds.length ∧ (ds.getD id none).isSome = true

/-- The invariant maintained by the record-reading phase: the descriptor
table covers all stream-referenced ids, every pooled block node references a
valid non-null descriptor, every pooled node's depth is at most 254, and
every dynamic-id mapping targets a valid non-null entry. -/
def StInv (total : Nat) (s : DecState) : Prop :=
  total ≤ s.descriptors.length ∧
  (∀ b ∈ s.blocks, (∀ nd, b.node = some nd → DescOk s.descriptors nd.id) ∧ b.depth ≤ 254) ∧
  (∀ p ∈ s.identification_table, DescOk s.descriptors p.2)

/-- What holds of the state a cancelled run carries: the stream position
froze at the cancelling checkpoint (the last of the checkpoint trace), and
the progress cell was indeed negative at that checkpoint's exchange. -/
def CancelSpec (cancel : Nat → Bool) (s : DecState) : Prop :=
  s.ckptTrace.getLast? = some s.consumed ∧ cancel (s.ckpt - 1) = true

/-- Aggregation of a sequence of occurrences (block indices) into one
id-keyed statistics map through `update_statistics`, the way the per-thread
map accumulates a thread's blocks (reader.cpp line 931). -/
def foldOccurrences (blocks : List BlocksTree) (parentIndex : Nat)
    (occs : List Nat) (m : StatsMap) : StatsMap :=
  occs.foldl
    (fun m i => (update_statistics m (blocks.getD i default) i parentIndex blocks true).1)
    m

/-- The duration of the occurrence at index `i` of the pool. -/
def occDuration (blocks : List BlocksTree) (i : Nat) : Nat :=
  (blocks.getD i default).recDuration

/-- Written from the words of claim C10: the longest leading run of the
descriptor table (starting at index `i`) in which every entry is present and
its stored id equals its index. -/
def specLeadingIdRun : Nat → List (Option SerializedBlockDescriptor) →
    List SerializedBlockDescriptor
  | _, [] => []
  | _, none :: _ => []
  | i, some d :: rest => if d.id = i then d :: specLeadingIdRun (i + 1) rest else []

/-- Written from the words of claim C10: the written descriptors are the
longest id-matching leading run of the first `min length count` entries. -/
def specWrittenDescriptors (ds : List (Option SerializedBlockDescriptor))
    (count : Nat) : List SerializedBlockDescriptor :=
  specLeadingIdRun 0 (ds.take (min ds.length count))

/-- The serialized form of one written descriptor (size prefix plus
payload), as `serializeDescriptors` emits it. -/
def descriptorItem (d : SerializedBlockDescriptor) : WItem :=
  WItem.descriptor (sizeofSerializedBlockDescriptor + strBytes d.name + strBytes d.file + 2) d

/-- A plain static descriptor stored at table index 0. -/
def descF : SerializedBlockDescriptor := ⟨0, 1, 0, BlockType.Block, "f", "a.c"⟩

/-- A static descriptor whose stored id is `i`. -/
def descAt (i : Nat) : SerializedBlockDescriptor := ⟨i, 1, 0, BlockType.Block, "f", "a.c"⟩

/-- A v2.0.0 header for a one-descriptor, three-block stream over the time
range [0, 100]. -/
def hdrC3 : EasyFileHeader :=
  ⟨PROFILER_SIGNATURE, versionInt 2 0 0, 1, 0, 0, 100, 1000, 100, 3, 1⟩

/-- The nesting example of the spec: one thread whose flat
completion-ordered records are B(10,40), C(50,90), A(0,100); after decode
they sit at block indices 0 (B), 1 (C) and 2 (A). -/
def inputNesting : InputStream :=
  ⟨hdrC3, [⟨16, descF⟩],
   [⟨1, 0, "", 0, [], 3,
     [⟨20, ⟨10, 40, 0, ""⟩⟩, ⟨20, ⟨50, 90, 0, ""⟩⟩, ⟨20, ⟨0, 100, 0, ""⟩⟩]⟩]⟩

/-- The flat completion-ordered records of one fully nested chain of `n`
blocks: the j-th processed record spans `[n - j, n + j + 1]`, so each record
strictly encloses all earlier ones. -/
def chainRecords (n : Nat) : List BlockRecord :=
  (List.range n).map (fun j => ⟨20, ⟨n - j, n + j + 1, 0, ""⟩⟩)

/-- A stream holding one thread with a nested chain of `n` blocks. -/
def chainInput (n : Nat) : InputStream :=
  ⟨⟨PROFILER_SIGNATURE, versionInt 2 0 0, 1, 0, 0, 4 * n + 4, 20 * n, 100, n, 1⟩,
   [⟨16, descF⟩], [⟨1, 0, "", 0, [], n, chainRecords n⟩]⟩

/-- A decoded top-level block node spanning `[b, e]`. -/
def mkBlockNode (b e : Nat) : BlocksTree :=
  { BlocksTree.empty with node := some ⟨b, e, 0, ""⟩ }

/-- The three top-level records [0,10], [20,30], [40,50] of the range
selection example (block indices 0, 1, 2). -/
def blocksRangeEx : List BlocksTree := [mkBlockNode 0 10, mkBlockNode 20 30, mkBlockNode 40 50]

/-- The thread root owning those three records. -/
def rootRangeEx : BlocksTreeRoot :=
  { BlocksTreeRoot.empty with thread_id := 1, children := [0, 1, 2] }

/-- A stream whose trace begins at time 100, holding one context switch
ending exactly at 100, one block ending before 100, and one block ending
exactly at 100. -/
def inputTimeFilter : InputStream :=
  ⟨⟨PROFILER_SIGNATURE, versionInt 2 0 0, 1, 0, 100, 300, 1000, 100, 3, 1⟩,
   [⟨16, descF⟩],
   [⟨1, 0, "", 1, [⟨20, ⟨60, 100, 7, "w"⟩⟩], 2,
     [⟨20, ⟨50, 90, 0, ""⟩⟩, ⟨20, ⟨80, 100, 0, ""⟩⟩]⟩]⟩

/-- A stream whose single block both ends before the trace begin time (100)
and references the out-of-range descriptor id 5 (the table has 1 entry). -/
def inputBadIdEarlyEnd : InputStream :=
  ⟨⟨PROFILER_SIGNATURE, versionInt 2 0 0, 1, 0, 100, 300, 1000, 100, 1, 1⟩,
   [⟨16, descF⟩],
   [⟨1, 0, "", 0, [], 1, [⟨20, ⟨50, 90, 5, ""⟩⟩]⟩]⟩

/-- An external writer that stores a negative value into the progress cell
which is observed exactly by the k-th checkpoint exchange. -/
def cancelAt (k : Nat) : Nat → Bool := fun i => i == k

/-- A concrete decode context: trace starting at time 100, one declared
descriptor, no statistics gathering. -/
def ctxTimeEx : DecodeCtx := ⟨versionInt 2 0 0, 100, 300, 1000, 100, 3, 1, false⟩

/-- A concrete mid-decode state holding the one-entry descriptor table. -/
def stDescEx : DecState := { DecState.initial with descriptors := [some descF] }

/-- Fold invariant: a property preserved by every step of a left fold holds
of the final accumulator. -/
theorem foldlInvariant {α β : Type} (P : α → Prop) (f : α → β → α)
    (h : ∀ a b, P a → P (f a b)) : ∀ (l : List β) (a : α), P a → P (l.foldl f a)
  | [], _, ha => ha
  | x :: xs, a, ha => foldlInvariant P f h xs (f a x) (h a x ha)

/-- An in-range `getD` returns a member of the list. -/
theorem getD_mem {α : Type} (d : α) : ∀ (l : List α) (i : Nat), i < l.length →
    l.getD i d ∈ l
  | x :: xs, 0, _ => List.mem_cons_self x xs
  | x :: xs, i + 1, h =>
    List.mem_cons_of_mem x (getD_mem d xs i (Nat.lt_of_succ_lt_succ h))

/-- `getD` on a list extended on the right agrees on in-range indices. -/
theorem getD_append_left {α : Type} (d : α) :
    ∀ (l l2 : List α) (i : Nat), i < l.length → (l ++ l2).getD i d = l.getD i d
  | _ :: _, _, 0, _ => rfl
  | _ :: xs, l2, i + 1, h => getD_append_left d xs l2 i (Nat.lt_of_succ_lt_succ h)

/-- Statistics writes keep the shape of the modified entry, hence of the
whole pool. -/
theorem shape_modifyBlockAt (f : BlocksTree → BlocksTree)
    (hf : ∀ x, nodeProj (f x) = nodeProj x) :
    ∀ (bs : List BlocksTree) (i : Nat),
      (modifyBlockAt bs i f).map nodeProj = bs.map nodeProj := by
  intro bs
  induction bs with
  | nil => intro i; rfl
  | cons b t ih =>
    intro i
    cases i with
    | zero => simp [modifyBlockAt, List.getD, hf]
    | succ j =>
      have := ih j
      simp only [modifyBlockAt, List.set, List.map] at this ⊢
      simp [List.getD] at this ⊢
      exact this

/-- `setPerThread` keeps the pool shape. -/
theorem shape_setPerThread (bs : List BlocksTree) (i : Nat) (k : StatsKey) :
    (setPerThread bs i k).map nodeProj = bs.map nodeProj :=
  shape_modifyBlockAt (fun b => { b with per_thread_stats := some k }) (fun _ => rfl) bs i

/-- `setPerParent` keeps the pool shape. -/
theorem shape_setPerParent (bs : List BlocksTree) (i : Nat) (k : StatsKey) :
    (setPerParent bs i k).map nodeProj = bs.map nodeProj :=
  shape_modifyBlockAt (fun b => { b with per_parent_stats := some k }) (fun _ => rfl) bs i

/-- `setPerFrame` keeps the pool shape. -/
theorem shape_setPerFrame (bs : List BlocksTree) (i : Nat) (k : StatsKey) :
    (setPerFrame bs i k).map nodeProj = bs.map nodeProj :=
  shape_modifyBlockAt (fun b => { b with per_frame_stats := some k }) (fun _ => rfl) bs i

/-- Equal shapes transfer membership up to shape. -/
theorem mem_of_shape {bs bs' : List BlocksTree}
    (h : bs'.map nodeProj = bs.map nodeProj) {b' : BlocksTree} (hb : b' ∈ bs') :
    ∃ b ∈ bs, nodeProj b = nodeProj b' := by
  have : nodeProj b' ∈ bs.map nodeProj := h ▸ List.mem_map_of_mem nodeProj hb
  obtain ⟨b, hbmem, hbeq⟩ := List.mem_map.mp this
  exact ⟨b, hbmem, hbeq⟩

/-- The depth bound of a pool transfers to any `getD` read of a
shape-equal pool (dropping to the default node, of depth 0, out of
range). -/
theorem depth_getD_le {bs bs' : List BlocksTree}
    (hd : ∀ b ∈ bs, b.depth ≤ 254)
    (h : bs'.map nodeProj = bs.map nodeProj) (i : Nat) :
    (bs'.getD i default).depth ≤ 254 := by
  by_cases hi : i < bs'.length
  · obtain ⟨b, hbmem, hbeq⟩ := mem_of_shape h (getD_mem default bs' i hi)
    have : b.depth = (bs'.getD i default).depth := congrArg (fun p => p.2.1) hbeq
    exact this ▸ hd b hbmem
  · have : bs'.getD i default = default := by
      simp [List.getD, List.getElem?_eq_none (Nat.le_of_not_lt hi)]
    rw [this]
    exact Nat.zero_le 254

/-- The per-parent statistics fold keeps the pool shape. -/
theorem shape_absorbChildrenStats (blockIndex : Nat) (bs0 : List BlocksTree) :
    ∀ (moved : List Nat) (start : StatsMap × List BlocksTree × Nat),
      start.2.1.map nodeProj = bs0.map nodeProj →
      (absorbChildrenStats blockIndex start moved).2.1.map nodeProj = bs0.map nodeProj := by
  intro moved start h
  refine foldlInvariant (fun acc => acc.2.1.map nodeProj = bs0.map nodeProj) _ ?_ moved start h
  intro acc ci hacc
  simpa [shape_setPerParent] using hacc

/-- The recursive per-frame walk keeps the pool shape. -/
theorem shape_update_statistics_recursive :
    ∀ (fuel : Nat) (m : StatsMap) (ci pi bs : _) (bs0 : List BlocksTree),
      bs.map nodeProj = bs0.map nodeProj →
      (update_statistics_recursive fuel m ci pi bs).2.map nodeProj = bs0.map nodeProj := by
  intro fuel
  induction fuel with
  | zero => intro m ci pi bs bs0 h; exact h
  | succ fuel ih =>
    intro m ci pi bs bs0 h
    rw [update_statistics_recursive]
    refine foldlInvariant
      (fun acc : StatsMap × List BlocksTree => acc.2.map nodeProj = bs0.map nodeProj)
      _ ?_ _ _ ?_
    · intro acc i hacc
      exact ih _ i pi acc.2 bs0 hacc
    · simpa [shape_setPerFrame] using h

/-- The per-frame context-switch loop keeps the pool shape. -/
theorem shape_csFrameLoop (sync : List Nat) (frame : BlocksTree) (childIndex : Nat)
    (bs0 : List BlocksTree) :
    ∀ (fuel : Nat) (fsc : CsStatsMap) (bs : List BlocksTree) (csIndex : Nat),
      bs.map nodeProj = bs0.map nodeProj →
      (csFrameLoop sync frame childIndex fuel fsc bs csIndex).2.map nodeProj = bs0.map nodeProj := by
  intro fuel
  induction fuel with
  | zero => intro fsc bs csIndex h; exact h
  | succ fuel ih =>
    intro fsc bs csIndex h
    simp only [csFrameLoop]
    split
    · split
      · exact ih _ bs (csIndex + 1) h
      · split
        · exact h
        · refine ih _ _ (csIndex + 1) ?_
          simpa [shape_setPerFrame] using h
    · exact h

/-- The per-thread statistics worker keeps the pool shape. -/
theorem shape_gatherWorker (fuel : Nat) (descriptors : List (Option SerializedBlockDescriptor))
    (root0 : BlocksTreeRoot) (pps0 pfs0 : StatsMap) (bs0 : List BlocksTree) :
    (gatherWorker fuel descriptors root0 pps0 pfs0 bs0).blocks.map nodeProj = bs0.map nodeProj := by
  rw [gatherWorker]
  refine foldlInvariant (fun acc : GatherAcc => acc.blocks.map nodeProj = bs0.map nodeProj)
    _ ?_ _ _ rfl
  intro acc ci hacc
  refine shape_csFrameLoop _ _ _ bs0 _ _ _ _ ?_
  refine shape_update_statistics_recursive _ _ _ _ _ bs0 ?_
  simpa [shape_setPerParent] using hacc

/-- The final statistics phase keeps the pool shape and never touches the
descriptor table. -/
theorem finalizeTrees_shape (ctx : DecodeCtx) (s : DecState) :
    (finalizeTrees ctx s).blocks.map nodeProj = s.blocks.map nodeProj ∧
    (finalizeTrees ctx s).descriptors = s.descriptors := by
  rw [finalizeTrees]
  split
  · refine foldlInvariant
      (fun st : DecState => st.blocks.map nodeProj = s.blocks.map nodeProj ∧
        st.descriptors = s.descriptors) _ ?_ _ _ ⟨rfl, rfl⟩
    intro st tid hst
    refine ⟨?_, hst.2⟩
    exact (shape_gatherWorker _ _ _ _ _ st.blocks).trans hst.1
  · refine foldlInvariant
      (fun st : DecState => st.blocks.map nodeProj = s.blocks.map nodeProj ∧
        st.descriptors = s.descriptors) _ ?_ _ _ ⟨rfl, rfl⟩
    intro st tid hst
    exact hst

/-- A universally quantified fact over a list extended by one element. -/
theorem forall_mem_append_singleton {α : Type} {P : α → Prop} {l : List α} {x : α}
    (h1 : ∀ b ∈ l, P b) (h2 : P x) : ∀ b ∈ l ++ [x], P b := by
  intro b hb
  rcases List.mem_append.mp hb with h | h
  · exact h1 b h
  · rw [List.mem_singleton] at h
    exact h ▸ h2

/-- The per-node facts of the invariant transfer along a shape-equal pool. -/
theorem blocksFacts_of_shape {ds : List (Option SerializedBlockDescriptor)}
    {bs bs' : List BlocksTree}
    (h : bs'.map nodeProj = bs.map nodeProj)
    (hb : ∀ b ∈ bs, (∀ nd, b.node = some nd → DescOk ds nd.id) ∧ b.depth ≤ 254) :
    ∀ b ∈ bs', (∀ nd, b.node = some nd → DescOk ds nd.id) ∧ b.depth ≤ 254 := by
  intro b' hb'
  obtain ⟨b, hbm, hbeq⟩ := mem_of_shape h hb'
  have hnode : b.node = b'.node := congrArg Prod.fst hbeq
  have hdepth : b.depth = b'.depth := congrArg (fun p => p.2.1) hbeq
  refine ⟨?_, hdepth ▸ (hb b hbm).2⟩
  intro nd hnd
  exact (hb b hbm).1 nd (by rw [hnode]; exact hnd)

/-- Validity of a descriptor id survives extending the table on the right. -/
theorem DescOk_append {ds : List (Option SerializedBlockDescriptor)}
    {l : List (Option SerializedBlockDescriptor)} {id : Nat}
    (h : DescOk ds id) : DescOk (ds ++ l) id := by
  obtain ⟨h1, h2⟩ := h
  refine ⟨?_, ?_⟩
  · simpa using Nat.lt_of_lt_of_le h1 (Nat.le_add_right _ _)
  · rw [getD_append_left none ds l id h1]
    exact h2

/-- `getD` at the old length of a one-element extension reads the new
element. -/
theorem getD_concat_length {α : Type} (d : α) :
    ∀ (l : List α) (x : α), (l ++ [x]).getD l.length d = x
  | [], _ => rfl
  | _ :: xs, x => getD_concat_length d xs x

/-- What `resolveDynamicId` guarantees: the state only grows the descriptor
table (and possibly the name table), the resolved id is valid and non-null,
and the name-table invariant is kept. -/
theorem resolveDynamicId_spec (s : DecState) (nd0 : SerializedBlock)
    (hid : DescOk s.descriptors nd0.id)
    (htab : ∀ p ∈ s.identification_table, DescOk s.descriptors p.2) :
    ∃ ext, (resolveDynamicId s nd0).2.descriptors = s.descriptors ++ ext ∧
      DescOk (resolveDynamicId s nd0).2.descriptors (resolveDynamicId s nd0).1.id ∧
      (∀ p ∈ (resolveDynamicId s nd0).2.identification_table,
          DescOk (resolveDynamicId s nd0).2.descriptors p.2) ∧
      (resolveDynamicId s nd0).2.blocks = s.blocks ∧
      (resolveDynamicId s nd0).2.threaded_trees = s.threaded_trees ∧
      (resolveDynamicId s nd0).2.blocks_counter = s.blocks_counter ∧
      (resolveDynamicId s nd0).2.parent_statistics = s.parent_statistics ∧
      (resolveDynamicId s nd0).2.per_thread_statistics = s.per_thread_statistics := by
  rw [resolveDynamicId]
  split
  · split
    · next knownId heq =>
      refine ⟨[], by simp, ?_, ?_, rfl, rfl, rfl, rfl, rfl⟩
      · simp only []
        obtain ⟨p, hpmem, hpid⟩ : ∃ p ∈ s.identification_table, p.2 = knownId := by
          rcases Option.map_eq_some'.mp heq with ⟨p, hfind, hsnd⟩
          exact ⟨p, List.mem_of_find?_eq_some hfind, hsnd⟩
        simpa using hpid ▸ htab p hpmem
      · simpa using htab
    · refine ⟨[s.descriptors.getD nd0.id none], rfl, ?_, ?_, rfl, rfl, rfl, rfl, rfl⟩
      · refine ⟨by simp, ?_⟩
        rw [getD_concat_length none s.descriptors (s.descriptors.getD nd0.id none)]
        exact hid.2
      · refine forall_mem_append_singleton (fun p hp => DescOk_append (htab p hp)) ?_
        refine ⟨by simp, ?_⟩
        rw [getD_concat_length none s.descriptors (s.descriptors.getD nd0.id none)]
        exact hid.2
  · exact ⟨[], by simp, by simpa using hid, by simpa using htab, rfl, rfl, rfl, rfl, rfl⟩

/-- The per-parent statistics fold keeps the shape and bounds the folded
depth by the pool's depth bound. -/
theorem absorbChildrenStats_spec (blockIndex : Nat) (bs0 : List BlocksTree)
    (hd : ∀ b ∈ bs0, b.depth ≤ 254) :
    ∀ (moved : List Nat) (start : StatsMap × List BlocksTree × Nat),
      start.2.1.map nodeProj = bs0.map nodeProj → start.2.2 ≤ 254 →
      (absorbChildrenStats blockIndex start moved).2.1.map nodeProj = bs0.map nodeProj ∧
      (absorbChildrenStats blockIndex start moved).2.2 ≤ 254 := by
  intro moved start h1 h2
  refine foldlInvariant
    (fun acc : StatsMap × List BlocksTree × Nat =>
      acc.2.1.map nodeProj = bs0.map nodeProj ∧ acc.2.2 ≤ 254) _ ?_ moved start ⟨h1, h2⟩
  intro acc ci hacc
  refine ⟨by simpa [shape_setPerParent] using hacc.1, ?_⟩
  have : (acc.2.1.getD ci default).depth ≤ 254 := depth_getD_le hd hacc.1 ci
  exact Nat.max_le.mpr ⟨hacc.2, this⟩

/-- The plain depth fold is bounded by the pool's depth bound. -/
theorem absorbChildrenDepth_le (bs : List BlocksTree)
    (hd : ∀ b ∈ bs, b.depth ≤ 254) (moved : List Nat) :
    absorbChildrenDepth bs moved ≤ 254 := by
  refine foldlInvariant (fun d => d ≤ 254) _ ?_ moved 0 (Nat.zero_le 254)
  intro d ci hdle
  have : (bs.getD ci default).depth ≤ 254 := depth_getD_le hd rfl ci
  exact Nat.max_le.mpr ⟨hdle, this⟩

/-- What the absorption step guarantees: the pool keeps its shape and the
computed maximal child depth is bounded by the pool's depth bound. -/
theorem absorbTrailing_spec (ctx : DecodeCtx) (tid : Nat) (s : DecState)
    (mt0 blockIndex : Nat) (hd : ∀ b ∈ s.blocks, b.depth ≤ 254) :
    (absorbTrailing ctx tid s mt0 blockIndex).blocks.map nodeProj = s.blocks.map nodeProj ∧
    (absorbTrailing ctx tid s mt0 blockIndex).maxChildDepth ≤ 254 := by
  rw [absorbTrailing]
  split
  · simp only []
    split
    · split
      · exact absorbChildrenStats_spec blockIndex s.blocks hd _ _ rfl (Nat.zero_le 254)
      · exact ⟨rfl, absorbChildrenDepth_le s.blocks hd _⟩
    · exact ⟨rfl, Nat.zero_le 254⟩
  · exact ⟨rfl, Nat.zero_le 254⟩

/-- Accepting a block preserves the record-phase invariant. -/
theorem acceptBlock_StInv (ctx : DecodeCtx) (tid : Nat) (s : DecState)
    (payload : SerializedBlock) (desc : SerializedBlockDescriptor) (total : Nat)
    (hinv : StInv total s) (hid : DescOk s.descriptors payload.id) :
    ∀ s', acceptBlock ctx tid s payload desc = Outcome.ok s' → StInv total s' := by
  intro s' hacc
  delta acceptBlock at hacc
  simp only [] at hacc
  set nd0 := (if payload.beginT < ctx.begin_time then
    { payload with beginT := ctx.begin_time } else payload) with hnd0
  have hnd0id : nd0.id = payload.id := by rw [hnd0]; split <;> rfl
  obtain ⟨ext, hdesc, hok, htab2, hblocks, htrees, hctr, hpstats, hth⟩ :=
    resolveDynamicId_spec s nd0 (by rw [hnd0id]; exact hid) hinv.2.2
  set dyn := resolveDynamicId s nd0 with hdyn
  have hs1inv : StInv total dyn.2 := by
    refine ⟨?_, ?_, htab2⟩
    · rw [hdesc]
      exact le_trans hinv.1 (by simp)
    · rw [hblocks, hdesc]
      intro b hb
      exact ⟨fun nd hnd => DescOk_append ((hinv.2.1 b hb).1 nd hnd), (hinv.2.1 b hb).2⟩
  set ab := absorbTrailing ctx tid dyn.2 dyn.1.beginT s.blocks_counter with hab
  obtain ⟨habshape, habdepth⟩ :=
    absorbTrailing_spec ctx tid dyn.2 dyn.1.beginT s.blocks_counter
      (fun b hb => (hs1inv.2.1 b hb).2)
  set s2 := (if ctx.gather_statistics ∧ ab.moved ≠ [] then
    { dyn.2 with
      parent_statistics := ptsStore dyn.2.parent_statistics tid ab.pps,
      blocks := ab.blocks }
    else dyn.2) with hs2
  have hs2desc : s2.descriptors = dyn.2.descriptors := by rw [hs2]; split <;> rfl
  have hs2tab : s2.identification_table = dyn.2.identification_table := by
    rw [hs2]; split <;> rfl
  have hs2shape : s2.blocks.map nodeProj = dyn.2.blocks.map nodeProj := by
    rw [hs2]; split
    · exact habshape
    · rfl
  have hs2facts : ∀ b ∈ s2.blocks,
      (∀ nd, b.node = some nd → DescOk s2.descriptors nd.id) ∧ b.depth ≤ 254 := by
    rw [hs2desc]
    exact blocksFacts_of_shape hs2shape hs1inv.2.1
  have hs2inv : StInv total s2 := by
    refine ⟨?_, hs2facts, ?_⟩
    · rw [hs2desc]; exact hs1inv.1
    · rw [hs2tab, hs2desc]; exact htab2
  split at hacc
  · exact absurd hacc (by simp)
  · next hguard =>
    have htreedepth : (if ab.moved = [] then 0 else ab.maxChildDepth + 1) ≤ 254 := by
      by_cases hmv : ab.moved = []
      · simp [hmv]
      · have hne : ab.maxChildDepth ≠ 254 := fun hcontra => hguard ⟨hmv, hcontra⟩
        have : ab.maxChildDepth < 254 := Nat.lt_of_le_of_ne habdepth hne
        simp [hmv]
        omega
    have htreefact :
        (∀ nd, (({ BlocksTree.empty with
            node := some dyn.1,
            children := ab.moved,
            depth := if ab.moved = [] then 0 else ab.maxChildDepth + 1 } : BlocksTree).node
              = some nd → DescOk s2.descriptors nd.id)) ∧
        ({ BlocksTree.empty with
            node := some dyn.1,
            children := ab.moved,
            depth := if ab.moved = [] then 0 else ab.maxChildDepth + 1 } : BlocksTree).depth ≤ 254 := by
      refine ⟨?_, htreedepth⟩
      intro nd hnd
      have : nd = dyn.1 := by simpa using hnd.symm
      rw [this, hs2desc]
      exact hok
    split at hacc
    · injection hacc with hinj
      subst hinj
      refine ⟨by simpa using hs2inv.1, ?_, by simpa [hs2tab, hs2desc] using htab2⟩
      simp only []
      refine blocksFacts_of_shape (shape_setPerThread _ _ _) ?_
      exact forall_mem_append_singleton hs2facts htreefact
    · injection hacc with hinj
      subst hinj
      refine ⟨by simpa using hs2inv.1, ?_, by simpa [hs2tab, hs2desc] using htab2⟩
      simp only []
      exact forall_mem_append_singleton hs2facts htreefact

/-- The record-phase invariant only looks at the descriptor table, the pool
and the name table. -/
theorem StInv_congr {total : Nat} {s s' : DecState}
    (hd : s'.descriptors = s.descriptors) (hb : s'.blocks = s.blocks)
    (ht : s'.identification_table = s.identification_table) (h : StInv total s) :
    StInv total s' := by
  unfold StInv at h ⊢
  rw [hd, hb, ht]
  exact h

/-- An outcome that is not a normal completion has `isOk = false`. -/
theorem isOk_false_of_ne_ok {o : Outcome} (h : ∀ s2, o = Outcome.ok s2 → False) :
    o.isOk = false := by
  cases o with
  | ok s2 => exact absurd rfl (h s2)
  | err e s2 => rfl
  | cancelled s2 => rfl

/-- Reading a context-switch record preserves the record-phase invariant. -/
theorem processCSwitchRecord_StInv (ctx : DecodeCtx) (tid : Nat) (s : DecState)
    (r : CSwitchRecord) (total : Nat) (hinv : StInv total s) :
    ∀ s', processCSwitchRecord ctx tid s r = Outcome.ok s' → StInv total s' := by
  intro s' h
  simp only [processCSwitchRecord] at h
  split at h
  · exact absurd h (by simp)
  · split at h
    · exact absurd h (by simp)
    · have htreefact :
          (∀ nd, (({ BlocksTree.empty with cs := some (if r.payload.beginT < ctx.begin_time
              then { r.payload with beginT := ctx.begin_time } else r.payload) } : BlocksTree).node
              = some nd → DescOk s.descriptors nd.id)) ∧
          ({ BlocksTree.empty with cs := some (if r.payload.beginT < ctx.begin_time
              then { r.payload with beginT := ctx.begin_time } else r.payload) } : BlocksTree).depth ≤ 254 := by
        exact ⟨fun nd hnd => by simp [BlocksTree.empty] at hnd, Nat.zero_le 254⟩
      split at h
      · split at h
        · injection h with hinj
          subst hinj
          refine ⟨hinv.1, ?_, hinv.2.2⟩
          simp only []
          refine blocksFacts_of_shape (shape_setPerThread _ _ _) ?_
          exact forall_mem_append_singleton hinv.2.1 htreefact
        · injection h with hinj
          subst hinj
          refine ⟨hinv.1, ?_, hinv.2.2⟩
          simp only []
          exact forall_mem_append_singleton hinv.2.1 htreefact
      · injection h with hinj
        subst hinj
        exact hinv

/-- Reading a block record preserves the record-phase invariant. -/
theorem processBlockRecord_StInv (ctx : DecodeCtx) (tid : Nat) (s : DecState)
    (r : BlockRecord) (total : Nat) (htotal : total = ctx.total_descriptors_number)
    (hinv : StInv total s) :
    ∀ s', processBlockRecord ctx tid s r = Outcome.ok s' → StInv total s' := by
  intro s' h
  simp only [processBlockRecord] at h
  split at h
  · exact absurd h (by simp)
  · split at h
    · exact absurd h (by simp)
    · split at h
      · exact absurd h (by simp)
      · next hidlt =>
        split at h
        · exact absurd h (by simp)
        · next desc hdesc =>
          split at h
          · refine acceptBlock_StInv ctx tid _ r.payload desc total ?_ ?_ s' h
            · exact hinv
            · refine ⟨?_, ?_⟩
              · have : r.payload.id < ctx.total_descriptors_number := Nat.lt_of_not_le hidlt
                exact Nat.lt_of_lt_of_le (htotal ▸ this) hinv.1
              · simp only []
                rw [hdesc]
                rfl
          · injection h with hinj
            subst hinj
            exact hinv

/-- A passed checkpoint only advances the checkpoint counters. -/
theorem checkpoint_ok_fields (cancel : Nat → Bool) (s : DecState) :
    ∀ s', checkpoint cancel s = Outcome.ok s' →
      s' = { s with ckpt := s.ckpt + 1, ckptTrace := s.ckptTrace ++ [s.consumed] } := by
  intro s' h
  simp only [checkpoint] at h
  split at h
  · exact absurd h (by simp)
  · injection h with hinj
    exact hinj.symm

/-- The context-switch loop preserves the record-phase invariant. -/
theorem csLoop_StInv (cancel : Nat → Bool) (ctx : DecodeCtx) (tid : Nat) (total : Nat) :
    ∀ (recs : List CSwitchRecord) (n : Nat) (s : DecState), StInv total s →
      ∀ s' eof, csLoop cancel ctx tid s recs n = LoopRes.done s' eof → StInv total s' := by
  intro recs
  induction recs with
  | nil =>
    intro n s hs s' eof h
    cases n with
    | zero => injection h with h1 _; exact h1 ▸ hs
    | succ n => injection h with h1 _; exact h1 ▸ hs
  | cons r rest ih =>
    intro n s hs s' eof h
    cases n with
    | zero => injection h with h1 _; exact h1 ▸ hs
    | succ n =>
      simp only [csLoop] at h
      split at h
      · next s1 hstep =>
        split at h
        · next s2 hck =>
          have hs1 : StInv total s1 := processCSwitchRecord_StInv ctx tid s r total hs s1 hstep
          have hs2 : StInv total s2 := by
            rw [checkpoint_ok_fields cancel s1 s2 hck]
            exact hs1
          exact ih n s2 hs2 s' eof h
        · exact absurd h (by simp)
      · exact absurd h (by simp)

/-- The block loop preserves the record-phase invariant. -/
theorem blocksLoop_StInv (cancel : Nat → Bool) (ctx : DecodeCtx) (tid : Nat) (total : Nat)
    (htotal : total = ctx.total_descriptors_number) :
    ∀ (recs : List BlockRecord) (n : Nat) (s : DecState), StInv total s →
      ∀ s' eof, blocksLoop cancel ctx tid s recs n = LoopRes.done s' eof → StInv total s' := by
  intro recs
  induction recs with
  | nil =>
    intro n s hs s' eof h
    cases n with
    | zero => injection h with h1 _; exact h1 ▸ hs
    | succ n => injection h with h1 _; exact h1 ▸ hs
  | cons r rest ih =>
    intro n s hs s' eof h
    cases n with
    | zero => injection h with h1 _; exact h1 ▸ hs
    | succ n =>
      simp only [blocksLoop] at h
      split at h
      · next s1 hstep =>
        split at h
        · next s2 hck =>
          have hs1 : StInv total s1 :=
            processBlockRecord_StInv ctx tid s r total htotal hs s1 hstep
          have hs2 : StInv total s2 := by
            rw [checkpoint_ok_fields cancel s1 s2 hck]
            exact hs1
          exact ih n s2 hs2 s' eof h
        · exact absurd h (by simp)
      · exact absurd h (by simp)

/-- One thread section preserves the record-phase invariant. -/
theorem processSection_StInv (cancel : Nat → Bool) (ctx : DecodeCtx) (total : Nat)
    (htotal : total = ctx.total_descriptors_number) (s : DecState) (sec : ThreadSection)
    (hs : StInv total s) :
    ∀ s' eof, processSection cancel ctx s sec = LoopRes.done s' eof → StInv total s' := by
  intro s' eof h
  delta processSection at h
  simp only [] at h
  split at h
  · exact absurd h (by simp)
  · next s1 eof1 hcs =>
    have hs1 : StInv total s1 := by
      refine csLoop_StInv cancel ctx sec.threadId total sec.csRecords sec.csCount _ ?_ s1 eof1 hcs
      refine StInv_congr ?_ ?_ ?_ hs
      · split <;> rfl
      · split <;> rfl
      · split <;> rfl
    split at h
    · injection h with h1 h2
      exact h1 ▸ hs1
    · refine blocksLoop_StInv cancel ctx sec.threadId total htotal sec.blockRecords
        sec.blockCount _ ?_ s' eof h
      exact StInv_congr rfl rfl rfl hs1

/-- A halted context-switch loop never carries a normal completion. -/
theorem csLoop_halt_never_ok (cancel : Nat → Bool) (ctx : DecodeCtx) (tid : Nat) :
    ∀ (recs : List CSwitchRecord) (n : Nat) (s : DecState) (o : Outcome),
      csLoop cancel ctx tid s recs n = LoopRes.halt o → o.isOk = false := by
  intro recs
  induction recs with
  | nil =>
    intro n s o h
    cases n with
    | zero => simp only [csLoop] at h; exact LoopRes.noConfusion h
    | succ n => simp only [csLoop] at h; exact LoopRes.noConfusion h
  | cons r rest ih =>
    intro n s o h
    cases n with
    | zero => simp only [csLoop] at h; exact LoopRes.noConfusion h
    | succ n =>
      simp only [csLoop] at h
      split at h
      · split at h
        · exact ih n _ o h
        · next x hne =>
          injection h with hinj
          exact isOk_false_of_ne_ok fun s2 heq => hne s2 (hinj.trans heq)
      · next x hne =>
        injection h with hinj
        exact isOk_false_of_ne_ok fun s2 heq => hne s2 (hinj.trans heq)

/-- A halted block loop never carries a normal completion. -/
theorem blocksLoop_halt_never_ok (cancel : Nat → Bool) (ctx : DecodeCtx) (tid : Nat) :
    ∀ (recs : List BlockRecord) (n : Nat) (s : DecState) (o : Outcome),
      blocksLoop cancel ctx tid s recs n = LoopRes.halt o → o.isOk = false := by
  intro recs
  induction recs with
  | nil =>
    intro n s o h
    cases n with
    | zero => simp only [blocksLoop] at h; exact LoopRes.noConfusion h
    | succ n => simp only [blocksLoop] at h; exact LoopRes.noConfusion h
  | cons r rest ih =>
    intro n s o h
    cases n with
    | zero => simp only [blocksLoop] at h; exact LoopRes.noConfusion h
    | succ n =>
      simp only [blocksLoop] at h
      split at h
      · split at h
        · exact ih n _ o h
        · next x hne =>
          injection h with hinj
          exact isOk_false_of_ne_ok fun s2 heq => hne s2 (hinj.trans heq)
      · next x hne =>
        injection h with hinj
        exact isOk_false_of_ne_ok fun s2 heq => hne s2 (hinj.trans heq)

/-- A halted thread section never carries a normal completion. -/
theorem processSection_halt_never_ok (cancel : Nat → Bool) (ctx : DecodeCtx)
    (s : DecState) (sec : ThreadSection) (o : Outcome)
    (h : processSection cancel ctx s sec = LoopRes.halt o) : o.isOk = false := by
  delta processSection at h
  simp only [] at h
  split at h
  · next o1 hcs =>
    injection h with hinj
    exact hinj ▸ csLoop_halt_never_ok cancel ctx sec.threadId _ _ _ _ hcs
  · next s1 eof1 hcs =>
    split at h
    · exact absurd h (by simp)
    · exact blocksLoop_halt_never_ok cancel ctx sec.threadId _ _ _ o h

/-- The section loop preserves the record-phase invariant. -/
theorem sectionsLoop_StInv (cancel : Nat → Bool) (ctx : DecodeCtx) (total : Nat)
    (htotal : total = ctx.total_descriptors_number) :
    ∀ (secs : List ThreadSection) (s : DecState), StInv total s →
      ∀ s', sectionsLoop cancel ctx s secs = Outcome.ok s' → StInv total s' := by
  intro secs
  induction secs with
  | nil =>
    intro s hs s' h
    injection h with hinj
    exact hinj ▸ hs
  | cons sec rest ih =>
    intro s hs s' h
    simp only [sectionsLoop] at h
    split at h
    · next o1 hhalt =>
      have hno := processSection_halt_never_ok cancel ctx s sec o1 hhalt
      rw [h] at hno
      exact absurd hno (by simp [Outcome.isOk])
    · next s1 eof hdone =>
      have hs1 : StInv total s1 := processSection_StInv cancel ctx total htotal s sec hs s1 eof hdone
      split at h
      · injection h with hinj
        exact hinj ▸ hs1
      · exact ih s1 hs1 s' h

/-- The descriptor loop never touches the pool, the trees or the name
table, and only extends the descriptor table. -/
theorem readDescriptorsLoop_fields (cancel : Nat → Bool) (ctx : DecodeCtx) :
    ∀ (recs : List DescRecord) (s : DecState) (s' : DecState),
      readDescriptorsLoop cancel ctx s recs = Outcome.ok s' →
      s'.blocks = s.blocks ∧ s'.identification_table = s.identification_table := by
  intro recs
  induction recs with
  | nil =>
    intro s s' h
    injection h with hinj
    exact hinj ▸ ⟨rfl, rfl⟩
  | cons r rest ih =>
    intro s s' h
    simp only [readDescriptorsLoop] at h
    split at h
    · split at h
      · have hrec := ih _ s' h
        exact ⟨hrec.1, hrec.2⟩
      · split at h
        · next s2 hck =>
          have hrec := ih _ s' h
          rw [checkpoint_ok_fields cancel _ s2 hck] at hrec
          exact ⟨hrec.1, hrec.2⟩
        · next x hne =>
          exact absurd h (fun heq => hne s' heq)
    · injection h with hinj
      exact hinj ▸ ⟨rfl, rfl⟩

/-- The decoder's global invariant: in every final state of a successful
`fillTreesFromStream` run, each pooled block node references an existing,
non-null descriptor entry and has depth at most 254. -/
theorem decode_blocks_inv (cancel : Nat → Bool) (input : InputStream) (g : Bool) :
    ∀ s', fillTreesFromStream cancel input g = Outcome.ok s' →
      ∀ b ∈ s'.blocks,
        (∀ nd, b.node = some nd → DescOk s'.descriptors nd.id) ∧ b.depth ≤ 254 := by
  intro s' h
  simp only [fillTreesFromStream] at h
  split at h
  · next s0 hck0 =>
    have hs0 : s0.blocks = [] ∧ s0.identification_table = [] := by
      rw [checkpoint_ok_fields cancel DecState.initial s0 hck0]
      exact ⟨rfl, rfl⟩
    split at h
    · exact absurd h (by simp)
    · split at h
      · exact absurd h (by simp)
      · split at h
        · exact absurd h (by simp)
        · split at h
          · exact absurd h (by simp)
          · split at h
            · next s1 hdesc =>
              have hs1 := readDescriptorsLoop_fields cancel _ input.descRecords _ s1 hdesc
              have hs1blocks : s1.blocks = [] := by rw [hs1.1]; exact hs0.1
              have hs1tab : s1.identification_table = [] := by rw [hs1.2]; exact hs0.2
              split at h
              · next s2 hafter =>
                split at h
                · next s3 hck90 =>
                  injection h with hinj
                  subst hinj
                  have hfacts2 : ∀ b ∈ s2.blocks,
                      (∀ nd, b.node = some nd → DescOk s2.descriptors nd.id) ∧
                      b.depth ≤ 254 := by
                    split at hafter
                    · injection hafter with hinj2
                      subst hinj2
                      rw [hs1blocks]
                      intro b hb
                      exact absurd hb (List.not_mem_nil b)
                    · next hnotlt =>
                      have hstinv1 : StInv input.header.total_descriptors_number s1 := by
                        refine ⟨Nat.le_of_not_lt hnotlt, ?_, ?_⟩
                        · rw [hs1blocks]
                          intro b hb
                          exact absurd hb (List.not_mem_nil b)
                        · rw [hs1tab]
                          intro p hp
                          exact absurd hp (List.not_mem_nil p)
                      exact (sectionsLoop_StInv cancel _ input.header.total_descriptors_number
                        rfl input.sections s1 hstinv1 s2 hafter).2.1
                  have hs3 :
                      s3 = { s2 with ckpt := s2.ckpt + 1, ckptTrace := s2.ckptTrace ++ [s2.consumed] } :=
                    checkpoint_ok_fields cancel s2 s3 hck90
                  have hfacts3 : ∀ b ∈ s3.blocks,
                      (∀ nd, b.node = some nd → DescOk s3.descriptors nd.id) ∧
                      b.depth ≤ 254 := by
                    rw [hs3]
                    exact hfacts2
                  obtain ⟨hshape, hdescs⟩ := finalizeTrees_shape _ s3
                  rw [hdescs]
                  exact blocksFacts_of_shape hshape hfacts3
                · next x hne => exact absurd h (fun heq => hne s' heq)
              · next x hne => exact absurd h (fun heq => hne s' heq)
            · next x hne => exact absurd h (fun heq => hne s' heq)
  · next x hne => exact absurd h (fun heq => hne s' heq)

/-- A well-sized block record whose descriptor id is at or beyond the
declared descriptor count aborts the decode with the bad-id error, leaving
only the stream/pool positions advanced. -/
theorem processBlockRecord_badId (ctx : DecodeCtx) (tid : Nat) (s : DecState)
    (r : BlockRecord) (h1 : r.sz ≠ 0) (h2 : s.offset + r.sz ≤ ctx.memory_size)
    (h3 : ctx.total_descriptors_number ≤ r.payload.id) :
    processBlockRecord ctx tid s r =
      Outcome.err (DecodeError.badBlockId r.payload.id)
        { s with read_number := s.read_number + 1,
                 consumed := s.consumed + 2 + r.sz, offset := s.offset + r.sz } := by
  simp only [processBlockRecord]
  rw [if_neg h1, if_neg (Nat.not_lt.mpr h2), if_pos h3]

/-- A well-sized block record referencing a null descriptor placeholder
aborts the decode with the null-description error. -/
theorem processBlockRecord_nullDesc (ctx : DecodeCtx) (tid : Nat) (s : DecState)
    (r : BlockRecord) (h1 : r.sz ≠ 0) (h2 : s.offset + r.sz ≤ ctx.memory_size)
    (h3 : r.payload.id < ctx.total_descriptors_number)
    (h4 : s.descriptors.getD r.payload.id none = none) :
    processBlockRecord ctx tid s r =
      Outcome.err (DecodeError.nullBlockDescription r.payload.id)
        { s with read_number := s.read_number + 1,
                 consumed := s.consumed + 2 + r.sz, offset := s.offset + r.sz } := by
  simp only [processBlockRecord]
  rw [if_neg h1, if_neg (Nat.not_lt.mpr h2), if_neg (Nat.not_le.mpr h3), h4]

/-- A well-sized block record with a valid descriptor whose end timestamp
precedes the trace begin time is skipped silently: the state is unchanged
except for the record counter and the stream/pool positions. -/
theorem processBlockRecord_skip (ctx : DecodeCtx) (tid : Nat) (s : DecState)
    (r : BlockRecord) (d : SerializedBlockDescriptor)
    (h1 : r.sz ≠ 0) (h2 : s.offset + r.sz ≤ ctx.memory_size)
    (h3 : r.payload.id < ctx.total_descriptors_number)
    (h4 : s.descriptors.getD r.payload.id none = some d)
    (h5 : r.payload.endT < ctx.begin_time) :
    processBlockRecord ctx tid s r =
      Outcome.ok
        { s with read_number := s.read_number + 1,
                 consumed := s.consumed + 2 + r.sz, offset := s.offset + r.sz } := by
  simp only [processBlockRecord]
  rw [if_neg h1, if_neg (Nat.not_lt.mpr h2), if_neg (Nat.not_le.mpr h3), h4]
  simp only []
  rw [if_neg (Nat.not_le.mpr h5)]

/-- A well-sized block record with a valid descriptor ending at or after
the trace begin time takes the acceptance path. -/
theorem processBlockRecord_accepts (ctx : DecodeCtx) (tid : Nat) (s : DecState)
    (r : BlockRecord) (d : SerializedBlockDescriptor)
    (h1 : r.sz ≠ 0) (h2 : s.offset + r.sz ≤ ctx.memory_size)
    (h3 : r.payload.id < ctx.total_descriptors_number)
    (h4 : s.descriptors.getD r.payload.id none = some d)
    (h5 : ctx.begin_time ≤ r.payload.endT) :
    processBlockRecord ctx tid s r =
      acceptBlock ctx tid
        { s with read_number := s.read_number + 1,
                 consumed := s.consumed + 2 + r.sz, offset := s.offset + r.sz }
        r.payload d := by
  simp only [processBlockRecord]
  rw [if_neg h1, if_neg (Nat.not_lt.mpr h2), if_neg (Nat.not_le.mpr h3), h4]
  simp only []
  rw [if_pos h5]

/-- An accepted block always increments the block counter by exactly one. -/
theorem acceptBlock_ok_counter (ctx : DecodeCtx) (tid : Nat) (s : DecState)
    (payload : SerializedBlock) (desc : SerializedBlockDescriptor) :
    ∀ s', acceptBlock ctx tid s payload desc = Outcome.ok s' →
      s'.blocks_counter = s.blocks_counter + 1 := by
  intro s' h
  delta acceptBlock at h
  simp only [] at h
  split at h
  · split at h
    · exact absurd h (by simp)
    · split at h
      · injection h with hinj
        subst hinj
        rfl
      · injection h with hinj
        subst hinj
        rfl
  · split at h
    · exact absurd h (by simp)
    · split at h
      · injection h with hinj
        subst hinj
        rfl
      · injection h with hinj
        subst hinj
        rfl

/-- A well-sized context-switch record whose end timestamp is at or before
the trace begin time is dropped silently (the condition is strict,
reader.cpp line 745). -/
theorem processCSwitchRecord_skip (ctx : DecodeCtx) (tid : Nat) (s : DecState)
    (r : CSwitchRecord) (h1 : r.sz ≠ 0) (h2 : s.offset + r.sz ≤ ctx.memory_size)
    (h5 : r.payload.endT ≤ ctx.begin_time) :
    processCSwitchRecord ctx tid s r =
      Outcome.ok
        { s with read_number := s.read_number + 1,
                 consumed := s.consumed + 2 + r.sz, offset := s.offset + r.sz } := by
  simp only [processCSwitchRecord]
  rw [if_neg h1, if_neg (Nat.not_lt.mpr h2), if_neg (Nat.not_lt.mpr h5)]

/-- A cancelling checkpoint freezes the stream position in the trace and
records a genuinely negative cell. -/
theorem checkpoint_cancelSpec (cancel : Nat → Bool) (s : DecState) :
    ∀ s', checkpoint cancel s = Outcome.cancelled s' → CancelSpec cancel s' := by
  intro s' h
  simp only [checkpoint] at h
  split at h
  · next hc =>
    injection h with hinj
    subst hinj
    refine ⟨?_, by simpa using hc⟩
    simp [CancelSpec]
  · exact absurd h (by simp)

/-- Reading a context-switch record never observes the progress cell. -/
theorem processCSwitchRecord_not_cancelled (ctx : DecodeCtx) (tid : Nat)
    (s : DecState) (r : CSwitchRecord) :
    ∀ s2, processCSwitchRecord ctx tid s r = Outcome.cancelled s2 → False := by
  intro s2 h
  simp only [processCSwitchRecord] at h
  split at h
  · exact absurd h (by simp)
  · split at h
    · exact absurd h (by simp)
    · split at h
      · split at h
        · exact absurd h (by simp)
        · exact absurd h (by simp)
      · exact absurd h (by simp)

/-- Accepting a block never observes the progress cell. -/
theorem acceptBlock_not_cancelled (ctx : DecodeCtx) (tid : Nat) (s : DecState)
    (payload : SerializedBlock) (desc : SerializedBlockDescriptor) :
    ∀ s2, acceptBlock ctx tid s payload desc = Outcome.cancelled s2 → False := by
  intro s2 h
  delta acceptBlock at h
  simp only [] at h
  split at h
  · split at h
    · exact absurd h (by simp)
    · split at h
      · exact absurd h (by simp)
      · exact absurd h (by simp)
  · split at h
    · exact absurd h (by simp)
    · split at h
      · exact absurd h (by simp)
      · exact absurd h (by simp)

/-- Reading a block record never observes the progress cell. -/
theorem processBlockRecord_not_cancelled (ctx : DecodeCtx) (tid : Nat)
    (s : DecState) (r : BlockRecord) :
    ∀ s2, processBlockRecord ctx tid s r = Outcome.cancelled s2 → False := by
  intro s2 h
  simp only [processBlockRecord] at h
  split at h
  · exact absurd h (by simp)
  · split at h
    · exact absurd h (by simp)
    · split at h
      · exact absurd h (by simp)
      · split at h
        · exact absurd h (by simp)
        · split at h
          · exact acceptBlock_not_cancelled ctx tid _ r.payload _ s2 h
          · exact absurd h (by simp)

/-- A context-switch loop halts with a cancellation only through a
checkpoint, freezing the stream position there. -/
theorem csLoop_halt_cancelSpec (cancel : Nat → Bool) (ctx : DecodeCtx) (tid : Nat) :
    ∀ (recs : List CSwitchRecord) (n : Nat) (s : DecState) (s2 : DecState),
      csLoop cancel ctx tid s recs n = LoopRes.halt (Outcome.cancelled s2) →
      CancelSpec cancel s2 := by
  intro recs
  induction recs with
  | nil =>
    intro n s s2 h
    cases n with
    | zero => simp only [csLoop] at h; exact LoopRes.noConfusion h
    | succ n => simp only [csLoop] at h; exact LoopRes.noConfusion h
  | cons r rest ih =>
    intro n s s2 h
    cases n with
    | zero => simp only [csLoop] at h; exact LoopRes.noConfusion h
    | succ n =>
      simp only [csLoop] at h
      split at h
      · split at h
        · exact ih n _ s2 h
        · next x hne =>
          injection h with hinj
          exact checkpoint_cancelSpec cancel _ s2 hinj
      · next x hne =>
        injection h with hinj
        exact absurd hinj (fun hh => processCSwitchRecord_not_cancelled ctx tid s r s2 hh)

/-- A block loop halts with a cancellation only through a checkpoint. -/
theorem blocksLoop_halt_cancelSpec (cancel : Nat → Bool) (ctx : DecodeCtx) (tid : Nat) :
    ∀ (recs : List BlockRecord) (n : Nat) (s : DecState) (s2 : DecState),
      blocksLoop cancel ctx tid s recs n = LoopRes.halt (Outcome.cancelled s2) →
      CancelSpec cancel s2 := by
  intro recs
  induction recs with
  | nil =>
    intro n s s2 h
    cases n with
    | zero => simp only [blocksLoop] at h; exact LoopRes.noConfusion h
    | succ n => simp only [blocksLoop] at h; exact LoopRes.noConfusion h
  | cons r rest ih =>
    intro n s s2 h
    cases n with
    | zero => simp only [blocksLoop] at h; exact LoopRes.noConfusion h
    | succ n =>
      simp only [blocksLoop] at h
      split at h
      · split at h
        · exact ih n _ s2 h
        · next x hne =>
          injection h with hinj
          exact checkpoint_cancelSpec cancel _ s2 hinj
      · next x hne =>
        injection h with hinj
        exact absurd hinj (fun hh => processBlockRecord_not_cancelled ctx tid s r s2 hh)

/-- A thread section halts with a cancellation only through a checkpoint. -/
theorem processSection_halt_cancelSpec (cancel : Nat → Bool) (ctx : DecodeCtx)
    (s : DecState) (sec : ThreadSection) (s2 : DecState)
    (h : processSection cancel ctx s sec = LoopRes.halt (Outcome.cancelled s2)) :
    CancelSpec cancel s2 := by
  delta processSection at h
  simp only [] at h
  split at h
  · next o1 hcs =>
    injection h with hinj
    subst hinj
    exact csLoop_halt_cancelSpec cancel ctx sec.threadId _ _ _ s2 hcs
  · next s1 eof1 hcs =>
    split at h
    · exact absurd h (by simp)
    · exact blocksLoop_halt_cancelSpec cancel ctx sec.threadId _ _ _ s2 h

/-- The section loop is cancelled only through a checkpoint. -/
theorem sectionsLoop_cancelSpec (cancel : Nat → Bool) (ctx : DecodeCtx) :
    ∀ (secs : List ThreadSection) (s : DecState) (s2 : DecState),
      sectionsLoop cancel ctx s secs = Outcome.cancelled s2 → CancelSpec cancel s2 := by
  intro secs
  induction secs with
  | nil =>
    intro s s2 h
    exact absurd h (by simp [sectionsLoop])
  | cons sec rest ih =>
    intro s s2 h
    simp only [sectionsLoop] at h
    split at h
    · next o1 hhalt =>
      subst h
      exact processSection_halt_cancelSpec cancel ctx s sec s2 hhalt
    · next s1 eof hdone =>
      split at h
      · exact absurd h (by simp)
      · exact ih s1 s2 h

/-- The descriptor loop is cancelled only through a checkpoint. -/
theorem readDescriptorsLoop_cancelSpec (cancel : Nat → Bool) (ctx : DecodeCtx) :
    ∀ (recs : List DescRecord) (s : DecState) (s2 : DecState),
      readDescriptorsLoop cancel ctx s recs = Outcome.cancelled s2 → CancelSpec cancel s2 := by
  intro recs
  induction recs with
  | nil =>
    intro s s2 h
    exact absurd h (by simp [readDescriptorsLoop])
  | cons r rest ih =>
    intro s s2 h
    simp only [readDescriptorsLoop] at h
    split at h
    · split at h
      · exact ih _ s2 h
      · split at h
        · exact ih _ s2 h
        · next x hne =>
          exact checkpoint_cancelSpec cancel _ s2 h
    · exact absurd h (by simp)

/-- A cancelled decode froze its stream position at the cancelling
checkpoint's exchange, which read a negative cell. -/
theorem fillTreesFromStream_cancelSpec (cancel : Nat → Bool) (input : InputStream)
    (g : Bool) :
    ∀ s2, fillTreesFromStream cancel input g = Outcome.cancelled s2 →
      CancelSpec cancel s2 := by
  intro s2 h
  simp only [fillTreesFromStream] at h
  split at h
  · next s0 hck0 =>
    split at h
    · exact absurd h (by simp)
    · split at h
      · exact absurd h (by simp)
      · split at h
        · exact absurd h (by simp)
        · split at h
          · exact absurd h (by simp)
          · split at h
            · next s1 hdesc =>
              split at h
              · next s2x hafter =>
                split at h
                · exact absurd h (by simp)
                · next x hne =>
                  exact checkpoint_cancelSpec cancel _ s2 h
              · next x hne =>
                split at h
                · exact absurd h (by simp)
                · exact sectionsLoop_cancelSpec cancel _ input.sections _ s2 h
            · next x hne =>
              exact readDescriptorsLoop_cancelSpec cancel _ input.descRecords _ s2 h
  · next x hne =>
    exact checkpoint_cancelSpec cancel _ s2 h

/--
C2. The spec claims that for a thread with top-level records at
[0,10], [20,30], [40,50], the encode window [15,45] selects exactly the
middle two records and widens the written begin/end to [20,50].  The code
disagrees: `findRange` (reader.cpp lines 1188-1227) only assigns a
non-empty range when the `lower_bound` for the window end lands strictly
inside the sequence (`last_it != children.end()`), and here every record
begins at or before 45, so `last_it` is the end iterator and the default
empty range `(size, size) = (3, 3)` is returned; `writeTreesToStream`
consequently finds zero selected blocks, logs "Nothing to save", writes
nothing and returns 0.
-/
theorem c2_findRange_selects_nothing :
    findRange [0, 1, 2] blocksRangeEx 15 45 = ⟨3, 3⟩ ∧
    writeTreesToStream neverCancel 100 [some descF] 1 [(1, rootRangeEx)]
      blocksRangeEx 15 45 7 = (0, []) := by
  exact ⟨rfl, rfl⟩

/--
C3 counterexample. Decoding B(10,40), C(50,90), A(0,100) succeeds and
produces `depth = 0` for B (block index 0), not the depth 2 asserted by the
claim: the `depth` field of `BlocksTree` stores the height of the node's
subtree (0 for a leaf), not its distance from the thread root.
-/
theorem c3_depth_of_B_is_zero :
    (fillTreesFromStream neverCancel inputNesting false).isOk = true ∧
    ((fillTreesFromStream neverCancel inputNesting false).stateOf.blocks.getD 0 default).depth ≠ 2 := by
  exact ⟨rfl, by decide⟩

/--
C3 as amended. Decoding the flat completion-ordered records B(10,40),
C(50,90), A(0,100) of one thread yields `root.children = [A]` and
`A.children = [B, C]` in that order (indices: B = 0, C = 1, A = 2), with
depth 1 for A and depth 0 for both B and C — the stored `depth` being the
subtree height, with leaves at 0.
-/
theorem c3_nesting_reconstruction :
    (fillTreesFromStream neverCancel inputNesting false).isOk = true ∧
    (treesGet (fillTreesFromStream neverCancel inputNesting false).stateOf.threaded_trees 1).children = [2] ∧
    ((fillTreesFromStream neverCancel inputNesting false).stateOf.blocks.getD 2 default).children = [0, 1] ∧
    ((fillTreesFromStream neverCancel inputNesting false).stateOf.blocks.getD 2 default).depth = 1 ∧
    ((fillTreesFromStream neverCancel inputNesting false).stateOf.blocks.getD 0 default).depth = 0 ∧
    ((fillTreesFromStream neverCancel inputNesting false).stateOf.blocks.getD 1 default).depth = 0 := by
  exact ⟨rfl, rfl, rfl, rfl, rfl, rfl⟩

set_option maxRecDepth 100000 in
/--
C4 counterexample. The claim asserts a nested chain of 255 levels fails
decode; in fact it decodes successfully (all 255 blocks accepted, the
outermost reaching the maximal depth 254).  The stack-depth check of
reader.cpp lines 905-916 fires only when an absorbed child already has
depth 254, i.e. on the 256th level of nesting.
-/
theorem c4_chain_255_succeeds :
    (fillTreesFromStream neverCancel (chainInput 255) false).isOk = true ∧
    returnedBlocks (fillTreesFromStream neverCancel (chainInput 255) false) = 255 ∧
    ((fillTreesFromStream neverCancel (chainInput 255) false).stateOf.blocks.getD 254 default).depth = 254 := by
  exact ⟨rfl, rfl, rfl⟩

set_option maxRecDepth 100000 in
/--
C4 as amended. A nested chain of 256 levels makes decode fail with the
stack-depth-exceeded error (returning 0), while a chain of 255 levels
decodes successfully; and in every successfully decoded trace no tree
node's stored depth exceeds 254.
-/
theorem c4_depth_limit :
    (fillTreesFromStream neverCancel (chainInput 256) false).errOf =
      some DecodeError.stackDepthExceeded ∧
    returnedBlocks (fillTreesFromStream neverCancel (chainInput 256) false) = 0 ∧
    (fillTreesFromStream neverCancel (chainInput 255) false).isOk = true ∧
    (∀ (cancel : Nat → Bool) (input : InputStream) (g : Bool) (s' : DecState),
        fillTreesFromStream cancel input g = Outcome.ok s' →
        ∀ b ∈ s'.blocks, b.depth ≤ 254) := by
  refine ⟨rfl, rfl, rfl, ?_⟩
  intro cancel input g s' h b hb
  exact (decode_blocks_inv cancel input g s' h b hb).2

set_option maxRecDepth 100000 in
/--
C4 witness: the depth bound instantiated on a successfully decoded
three-level chain.
-/
theorem c4_depth_limit_witness :
    (fillTreesFromStream neverCancel (chainInput 3) false).isOk = true ∧
    ∀ b ∈ (fillTreesFromStream neverCancel (chainInput 3) false).stateOf.blocks,
      b.depth ≤ 254 :=
  ⟨rfl,
   c4_depth_limit.2.2.2 neverCancel (chainInput 3) false
     (fillTreesFromStream neverCancel (chainInput 3) false).stateOf rfl⟩

/--
C5. Every block record accepted during a successful decode carries a
descriptor id referring to an existing, non-null entry of the in-memory
descriptor table (quantified over all inputs, hence in particular over
streams whose descriptor section under-read at end-of-stream — those skip
the record phase entirely, so the guarantee stands); and a well-sized block
record whose id is out of range, or whose table entry is a null
placeholder, makes the decoder abort immediately with the corresponding
error, returning the sentinel 0.
-/
theorem c5_descriptor_reference_invariant :
    (∀ (cancel : Nat → Bool) (input : InputStream) (g : Bool) (s' : DecState),
        fillTreesFromStream cancel input g = Outcome.ok s' →
        ∀ b ∈ s'.blocks, ∀ nd, b.node = some nd →
          nd.id < s'.descriptors.length ∧
          (s'.descriptors.getD nd.id none).isSome = true) ∧
    (∀ (ctx : DecodeCtx) (tid : Nat) (s : DecState) (r : BlockRecord),
        r.sz ≠ 0 → s.offset + r.sz ≤ ctx.memory_size →
        ctx.total_descriptors_number ≤ r.payload.id →
        processBlockRecord ctx tid s r =
          Outcome.err (DecodeError.badBlockId r.payload.id)
            { s with read_number := s.read_number + 1,
                     consumed := s.consumed + 2 + r.sz, offset := s.offset + r.sz } ∧
        returnedBlocks (processBlockRecord ctx tid s r) = 0) ∧
    (∀ (ctx : DecodeCtx) (tid : Nat) (s : DecState) (r : BlockRecord),
        r.sz ≠ 0 → s.offset + r.sz ≤ ctx.memory_size →
        r.payload.id < ctx.total_descriptors_number →
        s.descriptors.getD r.payload.id none = none →
        processBlockRecord ctx tid s r =
          Outcome.err (DecodeError.nullBlockDescription r.payload.id)
            { s with read_number := s.read_number + 1,
                     consumed := s.consumed + 2 + r.sz, offset := s.offset + r.sz } ∧
        returnedBlocks (processBlockRecord ctx tid s r) = 0) := by
  refine ⟨?_, ?_, ?_⟩
  · intro cancel input g s' h b hb nd hnd
    exact (decode_blocks_inv cancel input g s' h b hb).1 nd hnd
  · intro ctx tid s r h1 h2 h3
    have heq := processBlockRecord_badId ctx tid s r h1 h2 h3
    exact ⟨heq, by rw [heq]; rfl⟩
  · intro ctx tid s r h1 h2 h3 h4
    have heq := processBlockRecord_nullDesc ctx tid s r h1 h2 h3 h4
    exact ⟨heq, by rw [heq]; rfl⟩

/--
C5 witness: the invariant instantiated on the decoded nesting example (the
node of block B), plus the bad-id abort instantiated on a concrete state
and record.
-/
theorem c5_descriptor_reference_invariant_witness :
    ((⟨10, 40, 0, ""⟩ : SerializedBlock).id <
        (fillTreesFromStream neverCancel inputNesting false).stateOf.descriptors.length ∧
      ((fillTreesFromStream neverCancel inputNesting false).stateOf.descriptors.getD
        (⟨10, 40, 0, ""⟩ : SerializedBlock).id none).isSome = true) ∧
    (processBlockRecord ctxTimeEx 1 stDescEx ⟨20, ⟨50, 90, 5, ""⟩⟩ =
        Outcome.err (DecodeError.badBlockId 5)
          { stDescEx with read_number := stDescEx.read_number + 1,
                          consumed := stDescEx.consumed + 2 + 20,
                          offset := stDescEx.offset + 20 } ∧
      returnedBlocks (processBlockRecord ctxTimeEx 1 stDescEx ⟨20, ⟨50, 90, 5, ""⟩⟩) = 0) :=
  ⟨c5_descriptor_reference_invariant.1 neverCancel inputNesting false
      (fillTreesFromStream neverCancel inputNesting false).stateOf rfl
      ((fillTreesFromStream neverCancel inputNesting false).stateOf.blocks.getD 0 default)
      (getD_mem default
        (fillTreesFromStream neverCancel inputNesting false).stateOf.blocks 0
        (by decide)) ⟨10, 40, 0, ""⟩ rfl,
   c5_descriptor_reference_invariant.2.1 ctxTimeEx 1 stDescEx ⟨20, ⟨50, 90, 5, ""⟩⟩
      (by decide) (by decide) (by decide)⟩

/--
C8. If the shared progress cell holds a negative value when a checkpoint
performs its read-and-exchange, the enclosing call aborts with the sentinel
(0 blocks for the decoder, (0, nothing written) for the encoder's leading
checkpoint), and the stream position recorded at that cancelling checkpoint
is exactly the final stream position - no further bytes are consumed after
the checkpoint.  A cancellation at the very first checkpoint consumes
nothing at all.
-/
theorem c8_cancellation :
    (∀ (cancel : Nat → Bool) (input : InputStream) (g : Bool) (s2 : DecState),
        fillTreesFromStream cancel input g = Outcome.cancelled s2 →
        returnedBlocks (fillTreesFromStream cancel input g) = 0 ∧
        s2.ckptTrace.getLast? = some s2.consumed ∧
        cancel (s2.ckpt - 1) = true) ∧
    (∀ (cancel : Nat → Bool) (input : InputStream) (g : Bool),
        cancel 0 = true →
        (fillTreesFromStream cancel input g).isCancelled = true ∧
        (fillTreesFromStream cancel input g).stateOf.consumed = 0 ∧
        returnedBlocks (fillTreesFromStream cancel input g) = 0) ∧
    (∀ (cancel : Nat → Bool) (sd : Nat)
        (descs : List (Option SerializedBlockDescriptor)) (dc : Nat)
        (trees : List (Nat × BlocksTreeRoot)) (blocks : List BlocksTree)
        (bt et pid : Nat),
        cancel 0 = true →
        writeTreesToStream cancel sd descs dc trees blocks bt et pid = (0, [])) := by
  refine ⟨?_, ?_, ?_⟩
  · intro cancel input g s2 h
    have hspec := fillTreesFromStream_cancelSpec cancel input g s2 h
    exact ⟨by rw [h]; rfl, hspec.1, hspec.2⟩
  · intro cancel input g h
    have hck : checkpoint cancel DecState.initial =
        Outcome.cancelled { DecState.initial with ckpt := 1, ckptTrace := [0] } := by
      simp [checkpoint, DecState.initial, h]
    constructor
    · simp [fillTreesFromStream, hck, Outcome.isCancelled]
    constructor
    · simp [fillTreesFromStream, hck, Outcome.stateOf]
      rfl
    · simp [fillTreesFromStream, hck, returnedBlocks]
  · intro cancel sd descs dc trees blocks bt et pid h
    simp [writeTreesToStream, h]

/--
C8 witness: a run cancelled at its third checkpoint, with the recorded
stream position matching the final consumption.
-/
theorem c8_cancellation_witness :
    returnedBlocks (fillTreesFromStream (cancelAt 2) inputTimeFilter false) = 0 ∧
    (fillTreesFromStream (cancelAt 2) inputTimeFilter false).stateOf.ckptTrace.getLast? =
      some (fillTreesFromStream (cancelAt 2) inputTimeFilter false).stateOf.consumed ∧
    cancelAt 2 ((fillTreesFromStream (cancelAt 2) inputTimeFilter false).stateOf.ckpt - 1) = true :=
  c8_cancellation.1 (cancelAt 2) inputTimeFilter false
    (fillTreesFromStream (cancelAt 2) inputTimeFilter false).stateOf rfl

/--
C9 counterexample. The claim as stated says any block record ending before
the trace begin time is skipped with no error raised; but the descriptor
checks run first: this stream's single block ends at 90 < begin time 100
yet references descriptor id 5 of a 1-entry table, and decode aborts with
the bad-id error instead of skipping it.
-/
theorem c9_early_block_with_bad_id_errors :
    ((inputBadIdEarlyEnd.sections.getD 0 default).blockRecords.getD 0 default).payload.endT <
      inputBadIdEarlyEnd.header.begin_time ∧
    (fillTreesFromStream neverCancel inputBadIdEarlyEnd false).errOf =
      some (DecodeError.badBlockId 5) ∧
    returnedBlocks (fillTreesFromStream neverCancel inputBadIdEarlyEnd false) = 0 := by
  exact ⟨by decide, rfl, rfl⟩

/--
C9 as amended. Any block record that passes the structural checks (nonzero
size, fits the declared pool, valid non-null descriptor id) and whose end
timestamp is strictly below the trace begin time is silently skipped: not
attached to any tree, not counted, no error - only the record counter and
stream/pool positions advance.  Context switches are dropped under the
non-strict condition end <= begin_time, so a switch ending exactly at
begin_time is dropped while a block ending exactly at begin_time takes the
acceptance path, which (when it completes) increments the block counter.
-/
theorem c9_time_filter :
    (∀ (ctx : DecodeCtx) (tid : Nat) (s : DecState) (r : BlockRecord)
        (d : SerializedBlockDescriptor),
        r.sz ≠ 0 → s.offset + r.sz ≤ ctx.memory_size →
        r.payload.id < ctx.total_descriptors_number →
        s.descriptors.getD r.payload.id none = some d →
        r.payload.endT < ctx.begin_time →
        processBlockRecord ctx tid s r =
          Outcome.ok
            { s with read_number := s.read_number + 1,
                     consumed := s.consumed + 2 + r.sz, offset := s.offset + r.sz }) ∧
    (∀ (ctx : DecodeCtx) (tid : Nat) (s : DecState) (r : CSwitchRecord),
        r.sz ≠ 0 → s.offset + r.sz ≤ ctx.memory_size →
        r.payload.endT ≤ ctx.begin_time →
        processCSwitchRecord ctx tid s r =
          Outcome.ok
            { s with read_number := s.read_number + 1,
                     consumed := s.consumed + 2 + r.sz, offset := s.offset + r.sz }) ∧
    (∀ (ctx : DecodeCtx) (tid : Nat) (s : DecState) (r : BlockRecord)
        (d : SerializedBlockDescriptor),
        r.sz ≠ 0 → s.offset + r.sz ≤ ctx.memory_size →
        r.payload.id < ctx.total_descriptors_number →
        s.descriptors.getD r.payload.id none = some d →
        ctx.begin_time ≤ r.payload.endT →
        processBlockRecord ctx tid s r =
          acceptBlock ctx tid
            { s with read_number := s.read_number + 1,
                     consumed := s.consumed + 2 + r.sz, offset := s.offset + r.sz }
            r.payload d) ∧
    (∀ (ctx : DecodeCtx) (tid : Nat) (s : DecState) (payload : SerializedBlock)
        (desc : SerializedBlockDescriptor) (s' : DecState),
        acceptBlock ctx tid s payload desc = Outcome.ok s' →
        s'.blocks_counter = s.blocks_counter + 1) :=
  ⟨processBlockRecord_skip, processCSwitchRecord_skip, processBlockRecord_accepts,
   acceptBlock_ok_counter⟩

/--
C9 witness: the silent skip, the boundary drop of a context switch, and the
boundary acceptance of a block, all instantiated on concrete records against
the begin-time-100 context.
-/
theorem c9_time_filter_witness :
    (processBlockRecord ctxTimeEx 1 stDescEx ⟨20, ⟨50, 90, 0, ""⟩⟩ =
      Outcome.ok
        { stDescEx with read_number := stDescEx.read_number + 1,
                        consumed := stDescEx.consumed + 2 + 20,
                        offset := stDescEx.offset + 20 }) ∧
    (processCSwitchRecord ctxTimeEx 1 stDescEx ⟨20, ⟨60, 100, 7, "w"⟩⟩ =
      Outcome.ok
        { stDescEx with read_number := stDescEx.read_number + 1,
                        consumed := stDescEx.consumed + 2 + 20,
                        offset := stDescEx.offset + 20 }) ∧
    (processBlockRecord ctxTimeEx 1 stDescEx ⟨20, ⟨80, 100, 0, ""⟩⟩ =
      acceptBlock ctxTimeEx 1
        { stDescEx with read_number := stDescEx.read_number + 1,
                        consumed := stDescEx.consumed + 2 + 20,
                        offset := stDescEx.offset + 20 }
        ⟨80, 100, 0, ""⟩ descF) :=
  ⟨c9_time_filter.1 ctxTimeEx 1 stDescEx ⟨20, ⟨50, 90, 0, ""⟩⟩ descF
      (by decide) (by decide) (by decide) rfl (by decide),
   c9_time_filter.2.1 ctxTimeEx 1 stDescEx ⟨20, ⟨60, 100, 7, "w"⟩⟩
      (by decide) (by decide) (by decide),
   c9_time_filter.2.2.1 ctxTimeEx 1 stDescEx ⟨20, ⟨80, 100, 0, ""⟩⟩ descF
      (by decide) (by decide) (by decide) rfl (by decide)⟩

/-- Looking up the key just stored finds the stored value. -/
theorem statsFind_statsStore_self (k : Nat) (v : BlockStatistics) :
    ∀ m : StatsMap, statsFind (statsStore m k v) k = some v := by
  intro m
  induction m with
  | nil => simp [statsStore, statsFind]
  | cons p rest ih =>
    by_cases hp : p.1 = k
    · simp [statsStore, hp, statsFind]
    · simp only [statsStore]
      rw [if_neg hp]
      simp only [statsFind, List.find?]
      rw [show (p.1 == k) = false from beq_false_of_ne hp]
      exact ih

/-- A `uint64` wrap-around value is below the modulus. -/
theorem wadd_lt (a b : Nat) : wadd a b < U64 :=
  Nat.mod_lt _ (by simp [U64])

/-- A `uint64` subtraction result is below the modulus. -/
theorem wsub_lt (a b : Nat) : wsub a b < U64 :=
  Nat.mod_lt _ (by simp [U64])

/-- `update_statistics` on a fresh key stores the freshly constructed
`BlockStatistics(duration, index, parent)`, with the children rollup
applied when requested. -/
theorem update_statistics_new (m : StatsMap) (current : BlocksTree)
    (cidx pidx : Nat) (blocks : List BlocksTree) (cc : Bool)
    (hfind : statsFind m current.nodeId = none) :
    (update_statistics m current cidx pidx blocks cc).1 =
      statsStore m current.nodeId
        (if cc then
          { BlockStatistics.create current.recDuration cidx pidx with
            total_children_duration := addChildrenDurations blocks current.children 0 }
        else BlockStatistics.create current.recDuration cidx pidx) ∧
    (update_statistics m current cidx pidx blocks cc).2 = StatsKey.id current.nodeId := by
  simp only [update_statistics, hfind]
  constructor
  · split <;> rfl
  · trivial

/-- `update_statistics` on an existing key increments the call count, adds
the duration (wrapping), and moves the extremal references exactly when the
new duration beats the duration of the record they currently point to. -/
theorem update_statistics_found (m : StatsMap) (current : BlocksTree)
    (cidx pidx : Nat) (blocks : List BlocksTree) (cc : Bool)
    (st : BlockStatistics) (hfind : statsFind m current.nodeId = some st) :
    ∃ st4, (update_statistics m current cidx pidx blocks cc).1 =
        statsStore m current.nodeId st4 ∧
      st4.calls_number = st.calls_number + 1 ∧
      st4.total_duration = wadd st.total_duration current.recDuration ∧
      st4.max_duration_block =
        (if (blocks.getD st.max_duration_block default).recDuration < current.recDuration
         then cidx else st.max_duration_block) ∧
      st4.min_duration_block =
        (if current.recDuration < (blocks.getD st.min_duration_block default).recDuration
         then cidx else st.min_duration_block) := by
  simp only [update_statistics, hfind]
  refine ⟨_, rfl, ?_, ?_, ?_, ?_⟩ <;>
    simp only [apply_ite BlockStatistics.calls_number,
      apply_ite BlockStatistics.total_duration,
      apply_ite BlockStatistics.total_children_duration,
      apply_ite BlockStatistics.max_duration_block,
      apply_ite BlockStatistics.min_duration_block, ite_self]

/-- Folding further same-key occurrences onto an existing entry adds the
occurrence count to the calls and the duration sum (modulo 2^64) to the
total. -/
theorem foldOccurrences_aggregate (blocks : List BlocksTree) (pidx K : Nat) :
    ∀ (occs : List Nat) (m : StatsMap) (st : BlockStatistics),
      (∀ i ∈ occs, (blocks.getD i default).nodeId = K) →
      statsFind m K = some st → st.total_duration < U64 →
      ∃ st2, statsFind (foldOccurrences blocks pidx occs m) K = some st2 ∧
        st2.calls_number = st.calls_number + occs.length ∧
        st2.total_duration =
          (st.total_duration + (occs.map (occDuration blocks)).sum) % U64 := by
  intro occs
  induction occs with
  | nil =>
    intro m st hK hfind hlt
    exact ⟨st, hfind, rfl, by simpa using (Nat.mod_eq_of_lt hlt).symm⟩
  | cons i rest ih =>
    intro m st hK hfind hlt
    have hKi : (blocks.getD i default).nodeId = K := hK i (List.mem_cons_self i rest)
    obtain ⟨st4, hstore, hcalls, htotal, hmax, hmin⟩ :=
      update_statistics_found m (blocks.getD i default) i pidx blocks true st
        (by rw [hKi]; exact hfind)
    have hstep : foldOccurrences blocks pidx (i :: rest) m =
        foldOccurrences blocks pidx rest
          (update_statistics m (blocks.getD i default) i pidx blocks true).1 := rfl
    rw [hstep, hstore, hKi]
    obtain ⟨st2, hfind2, hcalls2, htotal2⟩ :=
      ih (statsStore m K st4) st4
        (fun j hj => hK j (List.mem_cons_of_mem i hj))
        (statsFind_statsStore_self K st4 m)
        (htotal ▸ wadd_lt st.total_duration (blocks.getD i default).recDuration)
    refine ⟨st2, hfind2, ?_, ?_⟩
    · rw [hcalls2, hcalls]
      simp [List.length_cons]
      omega
    · rw [htotal2, htotal]
      simp only [List.map_cons, List.sum_cons, wadd, occDuration]
      rw [Nat.mod_add_mod]
      ring_nf


/-- Aggregating a nonempty run of occurrences of one key starting from the
empty map creates the entry at the first occurrence and accumulates the
rest: the final calls count is the number of occurrences and the final
total is the sum of their durations modulo 2^64. -/
theorem foldOccurrences_from_empty (blocks : List BlocksTree) (pidx K : Nat)
    (i : Nat) (rest : List Nat)
    (hK : ∀ j ∈ i :: rest, (blocks.getD j default).nodeId = K) :
    ∃ st, statsFind (foldOccurrences blocks pidx (i :: rest) []) K = some st ∧
      st.calls_number = (i :: rest).length ∧
      st.total_duration = ((i :: rest).map (occDuration blocks)).sum % U64 := by
  have hKi : (blocks.getD i default).nodeId = K := hK i (List.mem_cons_self i rest)
  have hmap : (update_statistics ([] : StatsMap) (blocks.getD i default) i pidx
      blocks true).1 =
      statsStore [] (blocks.getD i default).nodeId
        { BlockStatistics.create (blocks.getD i default).recDuration i pidx with
          total_children_duration :=
            addChildrenDurations blocks (blocks.getD i default).children 0 } := rfl
  rw [hKi] at hmap
  have hlt : ({ BlockStatistics.create (blocks.getD i default).recDuration i pidx with
      total_children_duration :=
        addChildrenDurations blocks (blocks.getD i default).children 0 } :
      BlockStatistics).total_duration < U64 := wsub_lt _ _
  obtain ⟨st2, hfind2, hcalls2, htotal2⟩ :=
    foldOccurrences_aggregate blocks pidx K rest
      (statsStore [] K
        { BlockStatistics.create (blocks.getD i default).recDuration i pidx with
          total_children_duration :=
            addChildrenDurations blocks (blocks.getD i default).children 0 })
      { BlockStatistics.create (blocks.getD i default).recDuration i pidx with
        total_children_duration :=
          addChildrenDurations blocks (blocks.getD i default).children 0 }
      (fun j hj => hK j (List.mem_cons_of_mem i hj))
      (statsFind_statsStore_self K _ _)
      hlt
  have hstep : foldOccurrences blocks pidx (i :: rest) ([] : StatsMap) =
      foldOccurrences blocks pidx rest
        (update_statistics ([] : StatsMap) (blocks.getD i default) i pidx
          blocks true).1 := rfl
  refine ⟨st2, ?_, ?_, ?_⟩
  · rw [hstep, hmap]
    exact hfind2
  · rw [hcalls2]
    simp only [BlockStatistics.create, List.length_cons]
    omega
  · rw [htotal2]
    simp only [BlockStatistics.create, List.map_cons, List.sum_cons, occDuration]

/--
C6. Aggregating a fixed multiset of occurrences of one key into the
per-thread statistics map yields calls_number = the number of occurrences
and total_duration = the sum of their durations (in wrapping uint64
arithmetic), independently of the processing order; each single
`update_statistics` call either creates a fresh
`BlockStatistics(duration, index, parent)` entry (calls 1, total the
duration, max = min = the occurrence index) for an unseen key, or bumps
calls by one, adds the duration to the total, and retargets the max/min
references exactly when the new duration beats the duration of the record
they currently point to.
-/
theorem c6_per_thread_statistics :
    (∀ (blocks : List BlocksTree) (pidx K i : Nat) (rest : List Nat),
        (∀ j ∈ i :: rest, (blocks.getD j default).nodeId = K) →
        ∃ st, statsFind (foldOccurrences blocks pidx (i :: rest) []) K = some st ∧
          st.calls_number = (i :: rest).length ∧
          st.total_duration = ((i :: rest).map (occDuration blocks)).sum % U64) ∧
    (∀ (blocks : List BlocksTree) (pidx K : Nat) (occs occs2 : List Nat),
        occs.Perm occs2 →
        (∀ j ∈ occs, (blocks.getD j default).nodeId = K) →
        ∀ st st2,
          statsFind (foldOccurrences blocks pidx occs []) K = some st →
          statsFind (foldOccurrences blocks pidx occs2 []) K = some st2 →
          st.calls_number = st2.calls_number ∧
            st.total_duration = st2.total_duration) ∧
    (∀ (m : StatsMap) (current : BlocksTree) (cidx pidx : Nat)
        (blocks : List BlocksTree),
        statsFind m current.nodeId = none →
        ∃ stN, statsFind ((update_statistics m current cidx pidx blocks false).1)
            current.nodeId = some stN ∧
          stN.calls_number = 1 ∧
          stN.total_duration = current.recDuration ∧
          stN.max_duration_block = cidx ∧ stN.min_duration_block = cidx) ∧
    (∀ (m : StatsMap) (current : BlocksTree) (cidx pidx : Nat)
        (blocks : List BlocksTree) (st : BlockStatistics),
        statsFind m current.nodeId = some st →
        ∃ st4, statsFind ((update_statistics m current cidx pidx blocks false).1)
            current.nodeId = some st4 ∧
          st4.calls_number = st.calls_number + 1 ∧
          st4.total_duration = wadd st.total_duration current.recDuration ∧
          st4.max_duration_block =
            (if (blocks.getD st.max_duration_block default).recDuration <
                current.recDuration then cidx else st.max_duration_block) ∧
          st4.min_duration_block =
            (if current.recDuration <
                (blocks.getD st.min_duration_block default).recDuration
             then cidx else st.min_duration_block)) := by
  refine ⟨?_, ?_, ?_, ?_⟩
  · exact fun blocks pidx K i rest hK =>
      foldOccurrences_from_empty blocks pidx K i rest hK
  · intro blocks pidx K occs occs2 hperm hK st st2 h1 h2
    cases occs with
    | nil =>
      exact absurd h1 (by simp [foldOccurrences, statsFind])
    | cons i rest =>
      cases occs2 with
      | nil => exact absurd hperm.eq_nil (by simp)
      | cons i2 rest2 =>
        obtain ⟨sa, hfa, hca, hta⟩ := foldOccurrences_from_empty blocks pidx K i rest hK
        obtain ⟨sb, hfb, hcb, htb⟩ :=
          foldOccurrences_from_empty blocks pidx K i2 rest2
            (fun j hj => hK j (hperm.mem_iff.mpr hj))
        rw [h1] at hfa
        rw [h2] at hfb
        injection hfa with ha
        injection hfb with hb
        subst ha
        subst hb
        constructor
        · rw [hca, hcb]
          exact hperm.length_eq
        · rw [hta, htb, (hperm.map (occDuration blocks)).sum_eq]
  · intro m current cidx pidx blocks hfind
    obtain ⟨hmap, -⟩ := update_statistics_new m current cidx pidx blocks false hfind
    refine ⟨BlockStatistics.create current.recDuration cidx pidx,
      ?_, rfl, rfl, rfl, rfl⟩
    rw [hmap]
    exact statsFind_statsStore_self _ _ m
  · intro m current cidx pidx blocks st hfind
    obtain ⟨st4, hmap, hc, ht, hmx, hmn⟩ :=
      update_statistics_found m current cidx pidx blocks false st hfind
    exact ⟨st4, by rw [hmap]; exact statsFind_statsStore_self _ _ m,
      hc, ht, hmx, hmn⟩

/-- Witness for C6 at a concrete pool: aggregating the three occurrences of
descriptor id 0 in the range example, and a single fresh-key update. -/
theorem c6_per_thread_statistics_witness :
    (∃ st, statsFind (foldOccurrences blocksRangeEx 7 [0, 1, 2] []) 0 = some st ∧
        st.calls_number = ([0, 1, 2] : List Nat).length ∧
        st.total_duration =
          (([0, 1, 2] : List Nat).map (occDuration blocksRangeEx)).sum % U64) ∧
    (∃ stN, statsFind ((update_statistics [] (mkBlockNode 20 30) 1 7
          blocksRangeEx false).1) (mkBlockNode 20 30).nodeId = some stN ∧
        stN.calls_number = 1 ∧
        stN.total_duration = (mkBlockNode 20 30).recDuration ∧
        stN.max_duration_block = 1 ∧ stN.min_duration_block = 1) :=
  ⟨c6_per_thread_statistics.1 blocksRangeEx 7 0 0 [1, 2] (by decide),
   c6_per_thread_statistics.2.2.1 [] (mkBlockNode 20 30) 1 7 blocksRangeEx
     rfl⟩

/-- The very first progress checkpoint of a never-cancelled run succeeds
and only records the initial stream position. -/
theorem checkpoint_initial :
    checkpoint neverCancel DecState.initial =
      Outcome.ok { DecState.initial with ckpt := 1, ckptTrace := [0] } := rfl

/--
C7. Header validation: a signature mismatch or a version below
MIN_COMPATIBLE_VERSION makes `fillTreesFromStream` fail and return 0 with
the state still empty (no descriptor or block record read, only the
signature / version words consumed); in both header layouts a zero in any
of the four count/size fields makes the header read fail, and the decoder
then returns 0 with the same empty state.
-/
theorem c7_header_validation :
    (∀ (input : InputStream) (g : Bool),
        input.header.signature ≠ PROFILER_SIGNATURE →
        fillTreesFromStream neverCancel input g =
          Outcome.err DecodeError.wrongSignature
            { DecState.initial with ckpt := 1, ckptTrace := [0], consumed := 4 } ∧
        returnedBlocks (fillTreesFromStream neverCancel input g) = 0) ∧
    (∀ (input : InputStream) (g : Bool),
        input.header.signature = PROFILER_SIGNATURE →
        isCompatibleVersion input.header.version = false →
        fillTreesFromStream neverCancel input g =
          Outcome.err DecodeError.incompatibleVersion
            { DecState.initial with ckpt := 1, ckptTrace := [0], consumed := 8 } ∧
        returnedBlocks (fillTreesFromStream neverCancel input g) = 0) ∧
    (∀ hh : EasyFileHeader,
        hh.total_blocks_number = 0 ∨ hh.memory_size = 0 ∨
          hh.total_descriptors_number = 0 ∨ hh.descriptors_memory_size = 0 →
        (readHeader_v1 hh).isSome = true ∧ (readHeader_v2 hh).isSome = true) ∧
    (∀ (input : InputStream) (g : Bool) (e : DecodeError),
        input.header.signature = PROFILER_SIGNATURE →
        isCompatibleVersion input.header.version = true →
        (if input.header.version < EASY_V_200 then readHeader_v1 input.header
         else readHeader_v2 input.header) = some e →
        fillTreesFromStream neverCancel input g =
          Outcome.err e
            { DecState.initial with ckpt := 1, ckptTrace := [0], consumed := 8 } ∧
        returnedBlocks (fillTreesFromStream neverCancel input g) = 0) := by
  refine ⟨?_, ?_, ?_, ?_⟩
  · intro input g hsig
    have heq : fillTreesFromStream neverCancel input g =
        Outcome.err DecodeError.wrongSignature
          { DecState.initial with ckpt := 1, ckptTrace := [0], consumed := 4 } := by
      simp only [fillTreesFromStream, checkpoint_initial]
      rw [if_pos hsig]
      rfl
    exact ⟨heq, by rw [heq]; rfl⟩
  · intro input g hsig hver
    have heq : fillTreesFromStream neverCancel input g =
        Outcome.err DecodeError.incompatibleVersion
          { DecState.initial with ckpt := 1, ckptTrace := [0], consumed := 8 } := by
      simp only [fillTreesFromStream, checkpoint_initial]
      rw [if_neg (not_not_intro hsig)]
      rw [if_pos (show ¬ isCompatibleVersion input.header.version = true by
        simp [hver])]
      rfl
    exact ⟨heq, by rw [heq]; rfl⟩
  · intro hh hz
    constructor <;> rcases hz with h | h | h | h <;>
      simp [readHeader_v1, readHeader_v2, h, apply_ite Option.isSome]
  · intro input g e hsig hver hrd
    have heq : fillTreesFromStream neverCancel input g =
        Outcome.err e
          { DecState.initial with ckpt := 1, ckptTrace := [0], consumed := 8 } := by
      simp only [fillTreesFromStream, checkpoint_initial]
      rw [if_neg (not_not_intro hsig)]
      rw [if_neg (show ¬¬ isCompatibleVersion input.header.version = true from
        not_not_intro hver)]
      simp only [hrd]
      congr 1
    exact ⟨heq, by rw [heq]; rfl⟩

/-- Witness for C7 at concrete headers: a wrong signature, an old version,
a zero blocks number rejected by both header layouts, and a zero memory
size aborting the whole decode. -/
theorem c7_header_validation_witness :
    fillTreesFromStream neverCancel
        ⟨⟨0, versionInt 2 0 0, 1, 0, 0, 0, 1, 1, 1, 1⟩, [], []⟩ false =
      Outcome.err DecodeError.wrongSignature
        { DecState.initial with ckpt := 1, ckptTrace := [0], consumed := 4 } ∧
    fillTreesFromStream neverCancel
        ⟨⟨PROFILER_SIGNATURE, 0, 1, 0, 0, 0, 1, 1, 1, 1⟩, [], []⟩ false =
      Outcome.err DecodeError.incompatibleVersion
        { DecState.initial with ckpt := 1, ckptTrace := [0], consumed := 8 } ∧
    (readHeader_v1 ⟨PROFILER_SIGNATURE, versionInt 1 0 0, 1, 0, 0, 0, 1, 1, 0, 1⟩).isSome
        = true ∧
    (readHeader_v2 ⟨PROFILER_SIGNATURE, versionInt 1 0 0, 1, 0, 0, 0, 1, 1, 0, 1⟩).isSome
        = true ∧
    fillTreesFromStream neverCancel
        ⟨⟨PROFILER_SIGNATURE, versionInt 2 0 0, 1, 0, 0, 0, 0, 1, 1, 1⟩, [], []⟩ false =
      Outcome.err DecodeError.zeroMemorySize
        { DecState.initial with ckpt := 1, ckptTrace := [0], consumed := 8 } :=
  ⟨(c7_header_validation.1 _ false (by decide)).1,
   (c7_header_validation.2.1 _ false (by decide) (by decide)).1,
   (c7_header_validation.2.2.1 _ (Or.inl (by decide))).1,
   (c7_header_validation.2.2.1 _ (Or.inl (by decide))).2,
   (c7_header_validation.2.2.2
     ⟨⟨PROFILER_SIGNATURE, versionInt 2 0 0, 1, 0, 0, 0, 0, 1, 1, 1⟩, [], []⟩
     false DecodeError.zeroMemorySize (by decide) (by decide) rfl).1⟩

/-- The descriptor-serialization scan agrees with the leading id-matching
run, provided every visited entry up to (and including) the break position
is non-null. -/
theorem serializeDescriptorsGo_spec (ds : List (Option SerializedBlockDescriptor)) :
    ∀ (left i : Nat) (acc : List WItem),
      i + left ≤ ds.length →
      (∀ j, i ≤ j → j < i + left →
        j ≤ i + (specLeadingIdRun i ((ds.drop i).take left)).length →
        (ds.getD j none).isSome = true) →
      serializeDescriptorsGo ds i acc left =
        some (acc ++ (specLeadingIdRun i ((ds.drop i).take left)).map descriptorItem) := by
  intro left
  induction left with
  | zero =>
    intro i acc hbound hnn
    simp [serializeDescriptorsGo, specLeadingIdRun]
  | succ left ih =>
    intro i acc hbound hnn
    have hi : i < ds.length := by omega
    have hgetD : ds.getD i none = ds[i] := List.getD_eq_getElem ds none hi
    have htake : (ds.drop i).take (left + 1) = ds[i] :: (ds.drop (i + 1)).take left := by
      rw [List.drop_eq_getElem_cons hi, List.take_succ_cons]
    cases hcell : ds[i] with
    | none =>
      exfalso
      have h0 : (specLeadingIdRun i ((ds.drop i).take (left + 1))).length = 0 := by
        rw [htake, hcell]
        rfl
      have hsome := hnn i (Nat.le_refl i) (by omega) (by rw [h0]; omega)
      rw [hgetD, hcell] at hsome
      simp at hsome
    | some d =>
      by_cases hid : d.id = i
      · have hrun : specLeadingIdRun i ((ds.drop i).take (left + 1)) =
            d :: specLeadingIdRun (i + 1) ((ds.drop (i + 1)).take left) := by
          rw [htake, hcell]
          simp [specLeadingIdRun, hid]
        have hgo : serializeDescriptorsGo ds i acc (left + 1) =
            serializeDescriptorsGo ds (i + 1) (acc ++ [descriptorItem d]) left := by
          simp only [serializeDescriptorsGo, hgetD, hcell]
          rw [if_neg (not_not_intro hid)]
          rfl
        have hnn' : ∀ j, i + 1 ≤ j → j < (i + 1) + left →
            j ≤ (i + 1) + (specLeadingIdRun (i + 1) ((ds.drop (i + 1)).take left)).length →
            (ds.getD j none).isSome = true := by
          intro j hj1 hj2 hj3
          refine hnn j (by omega) (by omega) ?_
          rw [hrun, List.length_cons]
          omega
        rw [hgo, hrun, ih (i + 1) (acc ++ [descriptorItem d]) (by omega) hnn']
        simp
      · have hrun : specLeadingIdRun i ((ds.drop i).take (left + 1)) = [] := by
          rw [htake, hcell]
          simp [specLeadingIdRun, hid]
        have hgo : serializeDescriptorsGo ds i acc (left + 1) = some acc := by
          simp only [serializeDescriptorsGo, hgetD, hcell]
          rw [if_pos hid]
        rw [hgo, hrun]
        simp

/--
C10. `serializeDescriptors` writes exactly the longest leading run of the
descriptor table (capped at descriptors_count) in which every entry's
stored id equals its table index, provided every scanned entry up to the
break position is non-null; it stops permanently at the first mismatch, so
a later entry whose id matches its index is still never written; and a
null placeholder reached by the scan is dereferenced without a check
(undefined behavior, surfaced as `none`).
-/
theorem c10_serializeDescriptors :
    (∀ (ds : List (Option SerializedBlockDescriptor)) (count : Nat),
        (∀ j, j < min ds.length count →
            j ≤ (specWrittenDescriptors ds count).length →
            (ds.getD j none).isSome = true) →
        serializeDescriptors ds count =
          some ((specWrittenDescriptors ds count).map descriptorItem)) ∧
    serializeDescriptors [some (descAt 0), some (descAt 5), some (descAt 2)] 3 =
      some [descriptorItem (descAt 0)] ∧
    serializeDescriptors [some (descAt 0), none, some (descAt 2)] 3 = none := by
  refine ⟨?_, rfl, rfl⟩
  intro ds count hnn
  have hbound : 0 + min ds.length count ≤ ds.length := by
    rw [Nat.zero_add]
    exact Nat.min_le_left _ _
  have hhyp : ∀ j, 0 ≤ j → j < 0 + min ds.length count →
      j ≤ 0 + (specLeadingIdRun 0 ((ds.drop 0).take (min ds.length count))).length →
      (ds.getD j none).isSome = true := by
    intro j h0 hj2 hj3
    refine hnn j (by simpa using hj2) ?_
    simpa [specWrittenDescriptors, List.drop_zero] using hj3
  have h := serializeDescriptorsGo_spec ds (min ds.length count) 0 [] hbound hhyp
  unfold serializeDescriptors specWrittenDescriptors
  rw [h]
  simp [List.drop_zero]

/-- Witness for C10: a table whose two entries both match their indices is
written in full. -/
theorem c10_serializeDescriptors_witness :
    serializeDescriptors [some (descAt 0), some (descAt 1)] 2 =
      some [descriptorItem (descAt 0), descriptorItem (descAt 1)] := by
  have h := c10_serializeDescriptors.1 [some (descAt 0), some (descAt 1)] 2 (by decide)
  rw [h]
  rfl


/-- `std::lower_bound` returns the end position when every element of the
searched range satisfies the comparison predicate. -/
theorem lowerBoundGo_all_true (children : List Nat) (comp : Nat → Bool) :
    ∀ (fuel first len : Nat), len ≤ fuel →
      (∀ pos, first ≤ pos → pos < first + len →
        comp (children.getD pos 0) = true) →
      lowerBoundGo children comp fuel first len = first + len := by
  intro fuel
  induction fuel with
  | zero =>
    intro first len hle hall
    have hz : len = 0 := Nat.le_zero.mp hle
    subst hz
    rfl
  | succ fuel ih =>
    intro first len hle hall
    cases len with
    | zero => rfl
    | succ l =>
      have hcomp : comp (children.getD (first + (l + 1) / 2) 0) = true :=
        hall (first + (l + 1) / 2) (Nat.le_add_right _ _) (by omega)
      simp only [lowerBoundGo]
      rw [if_pos hcomp]
      refine (ih _ _ ?_ ?_).trans ?_
      · omega
      · intro pos h1 h2
        exact hall pos (by omega) (by omega)
      · omega

/-- `std::lower_bound` over the whole sequence returns the size when every
element satisfies the predicate. -/
theorem lowerBound_all_true (children : List Nat) (comp : Nat → Bool)
    (h : ∀ el ∈ children, comp el = true) :
    lowerBound children comp = children.length := by
  unfold lowerBound
  have hgo := lowerBoundGo_all_true children comp children.length 0 children.length
    (Nat.le_refl _) ?_
  · simpa using hgo
  · intro pos h1 h2
    exact h (children.getD pos 0) (getD_mem 0 children pos (by omega))

/-- The bug behind C1/C2: when every top-level record of a thread begins at
or before the window end (in particular for the full window of the trace),
the second `lower_bound` of `findRange` lands on the end iterator and the
empty default range is returned - nothing is selected. -/
theorem findRange_all_within (children : List Nat) (blocks : List BlocksTree)
    (beginTime endTime : Nat)
    (h : ∀ el ∈ children, (blocks.getD el default).recBegin ≤ endTime) :
    findRange children blocks beginTime endTime =
      ⟨children.length, children.length⟩ := by
  have hlb : lowerBound children
      (fun el => (blocks.getD el default).recBegin ≤ endTime) = children.length := by
    refine lowerBound_all_true children _ ?_
    intro el hel
    exact decide_eq_true (h el hel)
  unfold findRange
  simp only [hlb]
  split
  · rw [if_neg (fun hc => absurd hc.1 (lt_irrefl _))]
  · rfl

/-- Counting memory and blocks over an empty index range yields zero, with
any fuel. -/
theorem calc_empty_range (fuel : Nat) (children : List Nat) (n : Nat)
    (blocks : List BlocksTree)
    (descriptors : List (Option SerializedBlockDescriptor)) (cs : Bool) :
    calculateUsedMemoryAndBlocksCount fuel children ⟨n, n⟩ blocks descriptors cs =
      ⟨0, 0⟩ := by
  cases fuel with
  | zero => rfl
  | succ fuel =>
    simp [calculateUsedMemoryAndBlocksCount, rangeIdxs, Nat.sub_self]

/-- When every top-level record of every thread begins at or before the
window end, the ranges loop selects nothing: it either cancels or completes
with a zero total. -/
theorem rangesLoop_all_within (cancel : Nat → Bool) (blocks : List BlocksTree)
    (descriptors : List (Option SerializedBlockDescriptor)) (bt et : Nat)
    (fuel : Nat) :
    ∀ (l : List (Nat × BlocksTreeRoot)) (ck : Nat)
      (acc : List (Nat × BlocksAndCSwitchesRange)) (bT eT : Nat),
      (∀ p ∈ l,
        (∀ el ∈ (p.2).children, (blocks.getD el default).recBegin ≤ et) ∧
        (∀ el ∈ (p.2).sync, (blocks.getD el default).recBegin ≤ et)) →
      rangesLoop cancel blocks descriptors bt et fuel l ck acc ⟨0, 0⟩ bT eT = none ∨
      ∃ acc2 bT2 eT2 ck2,
        rangesLoop cancel blocks descriptors bt et fuel l ck acc ⟨0, 0⟩ bT eT =
          some (acc2, ⟨0, 0⟩, bT2, eT2, ck2) := by
  intro l
  induction l with
  | nil =>
    intro ck acc bT eT hall
    exact Or.inr ⟨acc, bT, eT, ck, rfl⟩
  | cons p rest ih =>
    intro ck acc bT eT hall
    obtain ⟨tid, tree⟩ := p
    obtain ⟨hc, hs⟩ := hall (tid, tree) (List.mem_cons_self _ _)
    have hrb := findRange_all_within tree.children blocks bt et hc
    have hrc := findRange_all_within tree.sync blocks bt et hs
    have hstep : rangesLoop cancel blocks descriptors bt et fuel
        ((tid, tree) :: rest) ck acc ⟨0, 0⟩ bT eT =
        if cancel ck = true then none
        else rangesLoop cancel blocks descriptors bt et fuel rest (ck + 1)
          (acc ++ [(tid, ⟨⟨0, 0⟩, ⟨0, 0⟩,
            ⟨tree.children.length, tree.children.length⟩,
            ⟨tree.sync.length, tree.sync.length⟩⟩)]) ⟨0, 0⟩ bT eT := by
      simp [rangesLoop, hrb, hrc, calc_empty_range, bmcAdd]
    rw [hstep]
    split
    · exact Or.inl rfl
    · exact ih (ck + 1) _ bT eT (fun q hq => hall q (List.mem_cons_of_mem _ hq))

/--
C1. The spec claims a round trip: encoding a successfully decoded model
with the full window `[begin_time, end_time]` of the trace and decoding the
result reproduces the model.  The code disagrees: whenever every top-level
record of every thread begins at or before the window end - which the full
window satisfies by construction - `findRange` returns the empty range for
every thread, so `writeTreesToStream` counts zero selected blocks, logs
"Nothing to save", writes nothing and returns 0; decoding the empty output
cannot reproduce any non-empty model.  Concretely, the decoded model of the
nesting example (3 blocks) encodes to `(0, [])` under its own full header
window [0, 100].
-/
theorem c1_roundtrip_impossible :
    (∀ (cancel : Nat → Bool) (sd : Nat)
        (descriptors : List (Option SerializedBlockDescriptor)) (dc : Nat)
        (trees : List (Nat × BlocksTreeRoot)) (blocks : List BlocksTree)
        (bt et pid : Nat),
        (∀ p ∈ trees,
          (∀ el ∈ (p.2).children, (blocks.getD el default).recBegin ≤ et) ∧
          (∀ el ∈ (p.2).sync, (blocks.getD el default).recBegin ≤ et)) →
        writeTreesToStream cancel sd descriptors dc trees blocks bt et pid =
          (0, [])) ∧
    (fillTreesFromStream neverCancel inputNesting false).isOk = true ∧
    returnedBlocks (fillTreesFromStream neverCancel inputNesting false) = 3 ∧
    writeTreesToStream neverCancel 100
      (fillTreesFromStream neverCancel inputNesting false).stateOf.descriptors 1
      (fillTreesFromStream neverCancel inputNesting false).stateOf.threaded_trees
      (fillTreesFromStream neverCancel inputNesting false).stateOf.blocks
      0 100 7 = (0, []) := by
  refine ⟨?_, rfl, rfl, rfl⟩
  intro cancel sd descriptors dc trees blocks bt et pid hall
  by_cases h0 : cancel 0 = true
  · simp [writeTreesToStream, h0]
  · by_cases h1 : trees.isEmpty ∨ sd = 0 ∨ dc = 0
    · rcases h1 with h | h | h <;> simp [writeTreesToStream, h0, h]
    · rcases rangesLoop_all_within cancel blocks descriptors bt et
        (blocks.length + 1) trees 1 [] bt et hall with
        hnone | ⟨acc2, bT2, eT2, ck2, hsome⟩
      · simp [writeTreesToStream, h0, h1, hnone]
      · simp [writeTreesToStream, h0, h1, hsome]

/-- Witness for C1: the full window [0, 100] over the range example selects
nothing and the encoder returns the sentinel without writing. -/
theorem c1_roundtrip_impossible_witness :
    writeTreesToStream neverCancel 100 [some descF] 1 [(1, rootRangeEx)]
      blocksRangeEx 0 100 7 = (0, []) :=
  c1_roundtrip_impossible.1 neverCancel 100 [some descF] 1 [(1, rootRangeEx)]
    blocksRangeEx 0 100 7 (by decide)

end EasyProfiler
